import Mathlib

/-!
# Verification of the Zyrex relocation core

A shallow embedding of the instruction-analysis and relocation machinery of the
Zyan hook engine (`src/Analysis.c`, `src/Relocation.c`), together with proofs of
the documented properties of analysis, relocation and the offset fix-up pass.

Memory is modelled as a function from byte offsets to byte values; machine
integers are modelled as `Nat`/`Int` with explicit two's-complement wrapping.
-/

set_option maxRecDepth 20000

/-! ## Definitions -/

/-- Little-endian encoding of `v` into `n` bytes (the bit pattern of a machine
integer store on x86). -/
def toBytesLE : Nat → Nat → List Nat
  | 0, _ => []
  | n + 1, v => v % 256 :: toBytesLE n (v / 256)

/-- The natural number denoted by a little-endian byte list. -/
def natFromBytesLE : List Nat → Nat
  | [] => 0
  | b :: bs => b + 256 * natFromBytesLE bs

/-- Overwrite the bytes `off, off+1, ...` of the buffer `buf` with the list `bs`. -/
def storeBytes (buf : Nat → Nat) (off : Nat) (bs : List Nat) : Nat → Nat :=
  fun x => if off ≤ x ∧ x < off + bs.length then bs.getD (x - off) 0 else buf x

/-- Read `n` bytes starting at `off` as a little-endian natural number. -/
def readBytesLE (buf : Nat → Nat) : Nat → Nat → Nat
  | _, 0 => 0
  | off, n + 1 => buf off + 256 * readBytesLE buf (off + 1) n

/-- Reinterpret the `w`-bit pattern `v` as a signed (two's complement) integer. -/
def asSigned (w : Nat) (v : Nat) : Int :=
  if v < 2 ^ (w - 1) then (v : Int) else (v : Int) - 2 ^ w

/-- Wrap an integer into the `w`-bit two's-complement range
`[-2^(w-1), 2^(w-1))` (the value of a truncating cast to a signed `w`-bit
machine integer). -/
def wrapI (w : Nat) (x : Int) : Int :=
  (x + 2 ^ (w - 1)) % 2 ^ w - 2 ^ (w - 1)

/-- `INTw_MIN` for a signed `w`-bit integer. -/
def intMinOf (w : Nat) : Int := -(2 ^ (w - 1))

/-- `INTw_MAX` for a signed `w`-bit integer. -/
def intMaxOf (w : Nat) : Int := 2 ^ (w - 1) - 1

structure ZyrexImmediate where
  offset : Nat
  size : Nat
  value : Int
  is_relative : Bool
deriving DecidableEq, Inhabited

structure ZyrexDisplacement where
  offset : Nat
  size : Nat
deriving DecidableEq, Inhabited

structure ZyrexModRm where
  mod : Nat
  rm : Nat
deriving DecidableEq, Inhabited

inductive ZydisMnemonic where
  | JMP | JO | JNO | JB | JNB | JZ | JNZ | JBE | JNBE | JS | JNS | JP | JNP
  | JL | JNL | JLE | JNLE
  | JCXZ | JECXZ | JRCXZ | LOOP | LOOPE | LOOPNE
  | other
deriving DecidableEq, Inhabited

structure ZydisDecodedInstruction where
  length : Nat
  mnemonic : ZydisMnemonic
  attrib_is_relative : Bool
  attrib_has_modrm : Bool
  imm0 : ZyrexImmediate
  disp : ZyrexDisplacement
  modrm : ZyrexModRm
deriving DecidableEq, Inhabited

/-- `ZyrexIsRelativeBranchInstruction` (src/Analysis.c): true when `raw.imm[0]`
is PC-relative and the mnemonic is one of the supported branches. -/
def ZyrexIsRelativeBranchInstruction (instruction : ZydisDecodedInstruction) : Bool :=
  if !instruction.imm0.is_relative then
    false
  else
    match instruction.mnemonic with
    | .JMP | .JO | .JNO | .JB | .JNB | .JZ | .JNZ | .JBE | .JNBE | .JS | .JNS
    | .JP | .JNP | .JL | .JNL | .JLE | .JNLE
    | .JCXZ | .JECXZ | .JRCXZ | .LOOP | .LOOPE | .LOOPNE => true
    | _ => false

/-- `ZyrexIsRelativeMemoryInstruction` (src/Analysis.c): ModR/M present with
`mod = 00` and `rm = 101` (RIP-relative / disp32-only addressing). -/
def ZyrexIsRelativeMemoryInstruction (instruction : ZydisDecodedInstruction) : Bool :=
  instruction.attrib_has_modrm && instruction.modrm.mod == 0 && instruction.modrm.rm == 5

structure ZyrexAnalyzedInstruction where
  address_offset : Nat
  address : Nat
  instruction : ZydisDecodedInstruction
  has_relative_target : Bool
  has_external_target : Bool
  is_internal_target : Bool
  absolute_target_address : Nat
  incoming : List Nat
  outgoing : Option Nat
deriving DecidableEq, Inhabited

def analyzeFirstPass (decode : List Nat → Option ZydisDecodedInstruction)
    (calcAbsoluteAddress : ZydisDecodedInstruction → Nat → Option Nat)
    (buffer : List Nat) (buffer_address : Nat) (bytes_to_analyze : Nat) :
    Nat → Nat → List ZyrexAnalyzedInstruction →
    Option (List ZyrexAnalyzedInstruction × Nat)
  | 0, offset, acc =>
    if bytes_to_analyze ≤ offset then
      some (acc, offset)
    else
      none
  | fuel + 1, offset, acc =>
    if bytes_to_analyze ≤ offset then
      some (acc, offset)
    else
      match decode (buffer.drop offset) with
        | none => none
        | some ins =>
          match (if ins.attrib_is_relative then
              calcAbsoluteAddress ins (buffer_address + offset) else some 0) with
          | none => none
          | some target =>
            analyzeFirstPass decode calcAbsoluteAddress buffer buffer_address
              bytes_to_analyze fuel (offset + ins.length)
              (acc ++ [{ address_offset := offset
                         address := buffer_address + offset
                         instruction := ins
                         has_relative_target := ins.attrib_is_relative
                         has_external_target := ins.attrib_is_relative
                         is_internal_target := false
                         absolute_target_address := target
                         incoming := []
                         outgoing := none }])

/-- Element `k` of an instruction list (out-of-range reads give `default`,
mirroring that the C code never reads out of range). -/
def instrAt (l : List ZyrexAnalyzedInstruction) (k : Nat) : ZyrexAnalyzedInstruction :=
  l.getD k default

/-- One iteration of the body of the cross-reference pass (`item` = index `j`,
`current` = index `i`): if instruction `j` has a relative target equal to
instruction `i`'s address, mark `j` as internal-targeting (`outgoing := i`)
and append `j` to `i`'s `incoming` list. -/
def crossRefBody (s : List ZyrexAnalyzedInstruction) (i j : Nat) :
    List ZyrexAnalyzedInstruction :=
  let item := instrAt s j
  let current := instrAt s i
  if item.has_relative_target && (item.absolute_target_address == current.address) then
    let s1 := s.set j { item with has_external_target := false, outgoing := some i }
    let current1 := instrAt s1 i
    s1.set i { current1 with is_internal_target := true,
                             incoming := current1.incoming ++ [j] }
  else
    s

/-- The inner `j` loop of the cross-reference pass. -/
def crossRefHalf (s : List ZyrexAnalyzedInstruction) (i : Nat) (js : List Nat) :
    List ZyrexAnalyzedInstruction :=
  js.foldl (fun t j => crossRefBody t i j) s

/-- The full (quadratic) cross-reference pass of `ZyrexAnalyzeInstructions`. -/
def crossRefPass (s : List ZyrexAnalyzedInstruction) :
    List ZyrexAnalyzedInstruction :=
  (List.range s.length).foldl (fun t i => crossRefHalf t i (List.range s.length)) s

/-- `ZyrexAnalyzeInstructions` (src/Analysis.c): first pass decodes
sequentially until `bytes_to_analyze` bytes are covered, second pass builds the
cross-reference graph.  Returns the analyzed instructions and `bytes_read`. -/
def ZyrexAnalyzeInstructions (decode : List Nat → Option ZydisDecodedInstruction)
    (calcAbsoluteAddress : ZydisDecodedInstruction → Nat → Option Nat)
    (buffer : List Nat) (buffer_address : Nat) (bytes_to_analyze : Nat) :
    Option (List ZyrexAnalyzedInstruction × Nat) :=
  match analyzeFirstPass decode calcAbsoluteAddress buffer buffer_address
      bytes_to_analyze bytes_to_analyze 0 [] with
  | none => none
  | some (l, bytes_read) => some (crossRefPass l, bytes_read)

/-- `targets l i j`: instruction `j` has a relative target whose resolved
absolute address equals instruction `i`'s address (the matching condition of
the cross-reference pass). -/
def targets (l : List ZyrexAnalyzedInstruction) (i j : Nat) : Bool :=
  (instrAt l j).has_relative_target
    && ((instrAt l j).absolute_target_address == (instrAt l i).address)

/-- The last `i < p` with `targets l i k` (the value the `outgoing` field holds
after the pass, since later outer iterations overwrite earlier ones). -/
def lastMatchIdx (l : List ZyrexAnalyzedInstruction) (k : Nat) : Nat → Option Nat
  | 0 => none
  | p + 1 => if targets l p k then some p else lastMatchIdx l k p

/-- The fields of an analyzed instruction that the cross-reference pass never
writes. -/
def sameStatics (a b : ZyrexAnalyzedInstruction) : Prop :=
  b.address_offset = a.address_offset ∧ b.address = a.address ∧
  b.instruction = a.instruction ∧ b.has_relative_target = a.has_relative_target ∧
  b.absolute_target_address = a.absolute_target_address

/-- `s` has the same length and the same static fields as `l₀`. -/
def listStatics (l₀ s : List ZyrexAnalyzedInstruction) : Prop :=
  s.length = l₀.length ∧ ∀ k, sameStatics (instrAt l₀ k) (instrAt s k)

/-- The first `p` outer iterations of the cross-reference pass (inner loop
bound `n`). -/
def crossRefUpTo (s : List ZyrexAnalyzedInstruction) (n p : Nat) :
    List ZyrexAnalyzedInstruction :=
  (List.range p).foldl (fun t i => crossRefHalf t i (List.range n)) s

/-- Sum of decoded instruction lengths. -/
def lenSum (l : List ZyrexAnalyzedInstruction) : Nat :=
  (l.map (fun it => it.instruction.length)).sum

/-- The instructions of `post` sit back to back starting at `offset`. -/
def chainFrom : Nat → List ZyrexAnalyzedInstruction → Prop
  | _, [] => True
  | offset, it :: rest =>
      it.address_offset = offset ∧ chainFrom (offset + it.instruction.length) rest

def sampleDecode : List Nat → Option ZydisDecodedInstruction
  | 0x90 :: _ =>
    some { length := 1, mnemonic := .other, attrib_is_relative := false,
           attrib_has_modrm := false, imm0 := ⟨0, 0, 0, false⟩,
           disp := ⟨0, 0⟩, modrm := ⟨0, 0⟩ }
  | 0x66 :: _ =>
    some { length := 2, mnemonic := .other, attrib_is_relative := false,
           attrib_has_modrm := false, imm0 := ⟨0, 0, 0, false⟩,
           disp := ⟨0, 0⟩, modrm := ⟨0, 0⟩ }
  | 0xEB :: imm :: _ =>
    some { length := 2, mnemonic := .JMP, attrib_is_relative := true,
           attrib_has_modrm := false,
           imm0 := { offset := 1, size := 8, value := asSigned 8 imm, is_relative := true },
           disp := ⟨0, 0⟩, modrm := ⟨0, 0⟩ }
  | _ => none

def sampleCalcAbs (ins : ZydisDecodedInstruction) (ip : Nat) : Option Nat :=
  some (((ip : Int) + ins.length + ins.imm0.value).toNat)

def C6run : List ZyrexAnalyzedInstruction × Nat :=
  (ZyrexAnalyzeInstructions sampleDecode sampleCalcAbs [0x66, 0x90, 0x90] 4096 1).getD
    ([], 0)

def C7run : List ZyrexAnalyzedInstruction × Nat :=
  (ZyrexAnalyzeInstructions sampleDecode sampleCalcAbs [0xEB, 0x50] 4096 1).getD
    ([], 0)

def C10run : List ZyrexAnalyzedInstruction × Nat :=
  (ZyrexAnalyzeInstructions sampleDecode sampleCalcAbs [0xEB, 0xFE] 4096 1).getD
    ([], 0)

inductive ZyanStatus where
  | success
  | notFound
  | unreachable
deriving DecidableEq, Inhabited

structure ZyrexInstructionTranslationItem where
  offset_source : Nat
  offset_destination : Nat
deriving DecidableEq, Inhabited

structure ZyrexTranslationContext where
  source : List Nat
  destination_address : Nat
  destination_buffer : Nat → Nat
  bytes_read : Nat
  bytes_written : Nat
  instructions_read : Nat
  instructions : List ZyrexAnalyzedInstruction
  translation_map : List ZyrexInstructionTranslationItem

/-- Modelled from the spec: the context-update routine of `Trampoline.c`
(spec section 4.5) is called with `(written_length, source_offset,
destination_offset)`, appends one `u8 × u8` translation-map item and advances
`bytes_written` by `written_length` (section 4.3 "Advance bytes_written by
inst.length"). -/
def ZyrexUpdateTranslationContext (context : ZyrexTranslationContext)
    (written_length source_offset destination_offset : Nat) :
    ZyrexTranslationContext :=
  { context with
    translation_map := context.translation_map ++
      [{ offset_source := source_offset % 256
         offset_destination := destination_offset % 256 }]
    bytes_written := context.bytes_written + written_length }

/-- Modelled from the spec: `ZyrexCalculateRelativeOffset` of `Utils.c`
(spec section 6) returns `target - source - instruction_length_after_operand`
as a `ZyanI32`. -/
def ZyrexCalculateRelativeOffset (length_after_operand source_address target_address : Nat) :
    Int :=
  wrapI 32 ((target_address : Int) - (source_address : Int) - (length_after_operand : Int))

/-- Modelled from the spec: `ZyrexWriteRelativeJump` of `Utils.c` (spec
section 6) emits the 5 bytes `E9 dd dd dd dd` at buffer offset
`buffer_offset` (whose runtime address is `jump_address`), the displacement
computed relative to `jump_address + 5`. -/
def ZyrexWriteRelativeJump (buf : Nat → Nat) (buffer_offset jump_address target_address : Nat) :
    Nat → Nat :=
  storeBytes buf buffer_offset
    (0xE9 :: toBytesLE 4
      ((ZyrexCalculateRelativeOffset 4 (jump_address + 1) target_address).emod (2 ^ 32)).toNat)

/-- `ZyrexRelocateCommonInstruction`: copy the instruction bytes verbatim and
record one translation-map item. -/
def ZyrexRelocateCommonInstruction (context : ZyrexTranslationContext)
    (instruction : ZyrexAnalyzedInstruction) : ZyanStatus × ZyrexTranslationContext :=
  let buf := storeBytes context.destination_buffer context.bytes_written
    ((context.source.drop context.bytes_read).take instruction.instruction.length)
  (ZyanStatus.success,
    ZyrexUpdateTranslationContext { context with destination_buffer := buf }
      instruction.instruction.length (context.bytes_read % 256)
      (context.bytes_written % 256))

/-- The distance computed by each width case of
`ZyrexShouldRewriteBranchInstruction`:
`(ZyanI64)(target - ((ZyanU64)destination + bytes_written) - length)`
in wrapping `u64` arithmetic reinterpreted as a signed 64-bit value. -/
def ZyrexBranchDistance (context : ZyrexTranslationContext)
    (instruction : ZyrexAnalyzedInstruction) : Int :=
  wrapI 64 ((instruction.absolute_target_address : Int)
    - (((context.destination_address + context.bytes_written) % 2 ^ 64 : Nat) : Int)
    - (instruction.instruction.length : Int))

/-- `ZyrexShouldRewriteBranchInstruction`: `some true` when the branch no
longer reaches its target at the existing immediate width, `some false` when
it still does, `none` for the `ZYAN_UNREACHABLE` default arm. -/
def ZyrexShouldRewriteBranchInstruction (context : ZyrexTranslationContext)
    (instruction : ZyrexAnalyzedInstruction) : Option Bool :=
  match instruction.instruction.imm0.size with
  | 8 => some (decide (ZyrexBranchDistance context instruction < intMinOf 8 ∨
      intMaxOf 8 < ZyrexBranchDistance context instruction))
  | 16 => some (decide (ZyrexBranchDistance context instruction < intMinOf 16 ∨
      intMaxOf 16 < ZyrexBranchDistance context instruction))
  | 32 => some (decide (ZyrexBranchDistance context instruction < intMinOf 32 ∨
      intMaxOf 32 < ZyrexBranchDistance context instruction))
  | _ => none

/-- The opcode/length table of the enlargement path (`0xE9` for `JMP`,
`0x80 + cc` as second byte after `0x0F` for each `Jcc`); `none` for the
`ZYAN_UNREACHABLE` default arm. -/
def enlargedBranchOpcode : ZydisMnemonic → Option (Nat × Nat)
  | .JMP => some (0xE9, 5)
  | .JO => some (0x80, 6)
  | .JNO => some (0x81, 6)
  | .JB => some (0x82, 6)
  | .JNB => some (0x83, 6)
  | .JZ => some (0x84, 6)
  | .JNZ => some (0x85, 6)
  | .JBE => some (0x86, 6)
  | .JNBE => some (0x87, 6)
  | .JS => some (0x88, 6)
  | .JNS => some (0x89, 6)
  | .JP => some (0x8A, 6)
  | .JNP => some (0x8B, 6)
  | .JL => some (0x8C, 6)
  | .JNL => some (0x8D, 6)
  | .JLE => some (0x8E, 6)
  | .JNLE => some (0x8F, 6)
  | _ => none

/-- The unenlargeable short-branch mnemonics (no 32-bit-displacement form). -/
def isUnenlargeableBranch : ZydisMnemonic → Bool
  | .JCXZ | .JECXZ | .JRCXZ | .LOOP | .LOOPE | .LOOPNE => true
  | _ => false

/-- `ZyrexRelocateRelativeBranchInstruction` (src/Relocation.c, lines
168-322): internal targets are copied verbatim (fixed up later); external
targets are copied with a re-computed displacement when they still reach,
rewritten as a three-instruction sequence for the unenlargeable mnemonics, or
enlarged to the near form otherwise. -/
def ZyrexRelocateRelativeBranchInstruction (context : ZyrexTranslationContext)
    (instruction : ZyrexAnalyzedInstruction) : ZyanStatus × ZyrexTranslationContext :=
  if !instruction.has_external_target then
    ZyrexRelocateCommonInstruction context instruction
  else
    match ZyrexShouldRewriteBranchInstruction context instruction with
    | none => (ZyanStatus.unreachable, context)
    | some true =>
      if isUnenlargeableBranch instruction.instruction.mnemonic then
        -- rewrite as `<orig, imm := 0x02> | EB 05 | E9 <rel32 to target>`
        let len := instruction.instruction.length
        let buf1 := storeBytes context.destination_buffer context.bytes_written
          ((context.source.drop context.bytes_read).take len)
        let buf2 := storeBytes buf1
          (context.bytes_written + instruction.instruction.imm0.offset) [0x02]
        let c1 := ZyrexUpdateTranslationContext
          { context with destination_buffer := buf2 }
          len (context.bytes_read % 256) (context.bytes_written % 256)
        let buf3 := storeBytes c1.destination_buffer
          (context.bytes_written + len) [0xEB, 0x05]
        let c2 := ZyrexUpdateTranslationContext
          { c1 with destination_buffer := buf3 }
          2 (c1.bytes_read % 256) (c1.bytes_written % 256 + len)
        let buf4 := ZyrexWriteRelativeJump c2.destination_buffer
          (context.bytes_written + len + 2)
          (context.destination_address + context.bytes_written + len + 2)
          instruction.absolute_target_address
        let c3 := ZyrexUpdateTranslationContext
          { c2 with destination_buffer := buf4 }
          5 (c2.bytes_read % 256) (c2.bytes_written % 256 + len + 2)
        (ZyanStatus.success, c3)
      else
        -- enlarge to the near form with a 32-bit displacement
        match enlargedBranchOpcode instruction.instruction.mnemonic with
        | none => (ZyanStatus.unreachable, context)
        | some (opcode, length) =>
          let buf1 := if opcode == 0xE9 then
              storeBytes context.destination_buffer context.bytes_written [0xE9]
            else
              storeBytes context.destination_buffer context.bytes_written [0x0F, opcode]
          let disp_offset := if opcode == 0xE9 then
              context.bytes_written + 1
            else
              context.bytes_written + 2
          let value := ZyrexCalculateRelativeOffset 4
            (context.destination_address + disp_offset)
            instruction.absolute_target_address
          let buf2 := storeBytes buf1 disp_offset
            (toBytesLE 4 ((value.emod (2 ^ 32)).toNat))
          (ZyanStatus.success,
            ZyrexUpdateTranslationContext { context with destination_buffer := buf2 }
              length (context.bytes_read % 256) (context.bytes_written % 256))
    | some false =>
      -- still reachable: copy, then overwrite the immediate at its own width
      let offset_address := context.bytes_written + instruction.instruction.imm0.offset
      let r := ZyrexRelocateCommonInstruction context instruction
      if r.1 = ZyanStatus.success then
        let c1 := r.2
        let value := ZyrexCalculateRelativeOffset 0
          (context.destination_address + c1.bytes_written)
          instruction.absolute_target_address
        match instruction.instruction.imm0.size with
        | 8 =>
          let buf := storeBytes c1.destination_buffer offset_address
            (toBytesLE 1 ((value.emod (2 ^ 8)).toNat))
          (ZyanStatus.success, { c1 with destination_buffer := buf })
        | 16 =>
          let buf := storeBytes c1.destination_buffer offset_address
            (toBytesLE 2 ((value.emod (2 ^ 16)).toNat))
          (ZyanStatus.success, { c1 with destination_buffer := buf })
        | 32 =>
          let buf := storeBytes c1.destination_buffer offset_address
            (toBytesLE 4 ((value.emod (2 ^ 32)).toNat))
          (ZyanStatus.success, { c1 with destination_buffer := buf })
        | _ => (ZyanStatus.unreachable, c1)
      else
        r

/-- `ZyrexRelocateRelativeMemoryInstruction` (src/Relocation.c, lines
334-368): instructions with an external target are copied and their
displacement overwritten at its own width; internal targets are copied
verbatim for the fix-up pass. -/
def ZyrexRelocateRelativeMemoryInstruction (context : ZyrexTranslationContext)
    (instruction : ZyrexAnalyzedInstruction) : ZyanStatus × ZyrexTranslationContext :=
  if instruction.has_external_target then
    let offset_address := context.bytes_written + instruction.instruction.disp.offset
    let r := ZyrexRelocateCommonInstruction context instruction
    if r.1 = ZyanStatus.success then
      let c1 := r.2
      let value := ZyrexCalculateRelativeOffset 0
        (context.destination_address + c1.bytes_written)
        instruction.absolute_target_address
      match instruction.instruction.disp.size with
      | 8 =>
        let buf := storeBytes c1.destination_buffer offset_address
          (toBytesLE 1 ((value.emod (2 ^ 8)).toNat))
        (ZyanStatus.success, { c1 with destination_buffer := buf })
      | 16 =>
        let buf := storeBytes c1.destination_buffer offset_address
          (toBytesLE 2 ((value.emod (2 ^ 16)).toNat))
        (ZyanStatus.success, { c1 with destination_buffer := buf })
      | 32 =>
        let buf := storeBytes c1.destination_buffer offset_address
          (toBytesLE 4 ((value.emod (2 ^ 32)).toNat))
        (ZyanStatus.success, { c1 with destination_buffer := buf })
      | _ => (ZyanStatus.unreachable, c1)
    else
      r
  else
    ZyrexRelocateCommonInstruction context instruction

/-- `ZyrexRelocateRelativeInstruction` (src/Relocation.c, lines 381-402):
dispatch between the branch and memory strategies; any other relative
instruction is `ZYAN_UNREACHABLE`. -/
def ZyrexRelocateRelativeInstruction (context : ZyrexTranslationContext)
    (instruction : ZyrexAnalyzedInstruction) : ZyanStatus × ZyrexTranslationContext :=
  if ZyrexIsRelativeBranchInstruction instruction.instruction then
    ZyrexRelocateRelativeBranchInstruction context instruction
  else if ZyrexIsRelativeMemoryInstruction instruction.instruction then
    ZyrexRelocateRelativeMemoryInstruction context instruction
  else
    (ZyanStatus.unreachable, context)

/-- `ZyrexRelocateInstruction` (src/Relocation.c, lines 508-523): dispatch on
`has_relative_target`, then advance `bytes_read` and `instructions_read` only
after the dispatched relocation succeeded (`ZYAN_CHECK` propagates the error
unchanged). -/
def ZyrexRelocateInstruction (context : ZyrexTranslationContext)
    (instruction : ZyrexAnalyzedInstruction) : ZyanStatus × ZyrexTranslationContext :=
  let r := if instruction.has_relative_target then
      ZyrexRelocateRelativeInstruction context instruction
    else
      ZyrexRelocateCommonInstruction context instruction
  if r.1 = ZyanStatus.success then
    (ZyanStatus.success,
      { r.2 with
        bytes_read := r.2.bytes_read + instruction.instruction.length
        instructions_read := r.2.instructions_read + 1 })
  else
    r

/-- `ZyrexGetRelocatedInstructionOffset` (src/Relocation.c, lines 417-435):
linear scan of the translation map, returning the destination offset of the
FIRST item whose `offset_source` matches (`none` = `ZYAN_STATUS_NOT_FOUND`). -/
def ZyrexGetRelocatedInstructionOffset :
    List ZyrexInstructionTranslationItem → Nat → Option Nat
  | [], _ => none
  | item :: rest, offset_source =>
    if item.offset_source == offset_source then
      some item.offset_destination
    else
      ZyrexGetRelocatedInstructionOffset rest offset_source

/-- The `(offset, size)` pair selected by the two classifier `if`s inside
`ZyrexUpdateInstructionsOffsets` (immediate for branches, displacement for
relative-memory instructions; the second `if` wins when both hold). -/
def fixupField (ins : ZydisDecodedInstruction) : Nat × Nat :=
  let p := (0, 0)
  let p := if ZyrexIsRelativeBranchInstruction ins then (ins.imm0.offset, ins.imm0.size) else p
  let p := if ZyrexIsRelativeMemoryInstruction ins then (ins.disp.offset, ins.disp.size) else p
  p

/-- One iteration of the `ZyrexUpdateInstructionsOffsets` loop.  Only the
destination buffer is written; the translation map and the instruction list
are read-only, so they are passed as fixed parameters. -/
def ZyrexFixupInstruction (map : List ZyrexInstructionTranslationItem)
    (instructions : List ZyrexAnalyzedInstruction) (buf : Nat → Nat)
    (instruction : ZyrexAnalyzedInstruction) : ZyanStatus × (Nat → Nat) :=
  if !instruction.has_relative_target || instruction.has_external_target then
    (ZyanStatus.success, buf)
  else
    let offset := (fixupField instruction.instruction).1
    let size := (fixupField instruction.instruction).2
    if size = 0 then
      (ZyanStatus.unreachable, buf)
    else
      match ZyrexGetRelocatedInstructionOffset map (instruction.address_offset % 256) with
      | none => (ZyanStatus.notFound, buf)
      | some offset_instruction =>
        match instruction.outgoing with
        | none => (ZyanStatus.unreachable, buf)
        | some t =>
          match instructions.get? t with
          | none => (ZyanStatus.unreachable, buf)
          | some destination =>
            match ZyrexGetRelocatedInstructionOffset map
                (destination.address_offset % 256) with
            | none => (ZyanStatus.notFound, buf)
            | some offset_destination =>
              let value := ZyrexCalculateRelativeOffset
                instruction.instruction.length offset_instruction offset_destination
              match size with
              | 8 => (ZyanStatus.success, storeBytes buf (offset_instruction + offset)
                  (toBytesLE 1 ((value.emod (2 ^ 8)).toNat)))
              | 16 => (ZyanStatus.success, storeBytes buf (offset_instruction + offset)
                  (toBytesLE 2 ((value.emod (2 ^ 16)).toNat)))
              | 32 => (ZyanStatus.success, storeBytes buf (offset_instruction + offset)
                  (toBytesLE 4 ((value.emod (2 ^ 32)).toNat)))
              | _ => (ZyanStatus.unreachable, buf)

def ZyrexUpdateInstructionsOffsetsLoop (map : List ZyrexInstructionTranslationItem)
    (instructions : List ZyrexAnalyzedInstruction) :
    (Nat → Nat) → List ZyrexAnalyzedInstruction → ZyanStatus × (Nat → Nat)
  | buf, [] => (ZyanStatus.success, buf)
  | buf, instruction :: rest =>
    let r := ZyrexFixupInstruction map instructions buf instruction
    if r.1 = ZyanStatus.success then
      ZyrexUpdateInstructionsOffsetsLoop map instructions r.2 rest
    else
      r

/-- `ZyrexUpdateInstructionsOffsets` (src/Relocation.c, lines 443-506): the
offset fix-up pass over all analyzed instructions. -/
def ZyrexUpdateInstructionsOffsets (context : ZyrexTranslationContext) :
    ZyanStatus × ZyrexTranslationContext :=
  let r := ZyrexUpdateInstructionsOffsetsLoop context.translation_map
    context.instructions context.destination_buffer context.instructions
  (r.1, { context with destination_buffer := r.2 })

/-- The byte range a fix-up step may write: `none` when the instruction is
skipped or its own translation-map lookup fails. -/
def fixupRegion (map : List ZyrexInstructionTranslationItem)
    (instruction : ZyrexAnalyzedInstruction) : Option (Nat × Nat) :=
  if !instruction.has_relative_target || instruction.has_external_target then
    none
  else
    match ZyrexGetRelocatedInstructionOffset map (instruction.address_offset % 256) with
    | none => none
    | some oi => some (oi + (fixupField instruction.instruction).1,
        (fixupField instruction.instruction).2 / 8)

def C9context : ZyrexTranslationContext :=
  { source := [0x90]
    destination_address := 8192
    destination_buffer := fun _ => 0
    bytes_read := 0
    bytes_written := 0
    instructions_read := 0
    instructions := []
    translation_map := [] }

def C9instruction : ZyrexAnalyzedInstruction :=
  { address_offset := 0
    address := 4096
    instruction := { length := 1, mnemonic := .other, attrib_is_relative := true,
                     attrib_has_modrm := false, imm0 := ⟨0, 0, 0, false⟩,
                     disp := ⟨0, 0⟩, modrm := ⟨0, 0⟩ }
    has_relative_target := true
    has_external_target := true
    is_internal_target := false
    absolute_target_address := 0
    incoming := []
    outgoing := none }

def C2context : ZyrexTranslationContext :=
  { source := [0xEB, 0x7F]
    destination_address := 1000
    destination_buffer := fun _ => 0
    bytes_read := 0
    bytes_written := 0
    instructions_read := 0
    instructions := []
    translation_map := [] }

def C2instruction : ZyrexAnalyzedInstruction :=
  { address_offset := 0
    address := 4096
    instruction := { length := 2, mnemonic := .JMP, attrib_is_relative := true,
                     attrib_has_modrm := false, imm0 := ⟨1, 8, 127, true⟩,
                     disp := ⟨0, 0⟩, modrm := ⟨0, 0⟩ }
    has_relative_target := true
    has_external_target := true
    is_internal_target := false
    absolute_target_address := 1129
    incoming := []
    outgoing := none }

/-- Modelled from the spec: the canonical x86 condition-code table (`cc` such
that the near form of the conditional branch is `0F (80+cc)`). -/
def specConditionCode : ZydisMnemonic → Nat
  | .JO => 0x0
  | .JNO => 0x1
  | .JB => 0x2
  | .JNB => 0x3
  | .JZ => 0x4
  | .JNZ => 0x5
  | .JBE => 0x6
  | .JNBE => 0x7
  | .JS => 0x8
  | .JNS => 0x9
  | .JP => 0xA
  | .JNP => 0xB
  | .JL => 0xC
  | .JNL => 0xD
  | .JLE => 0xE
  | .JNLE => 0xF
  | _ => 0

def C4context : ZyrexTranslationContext :=
  { source := [0x75, 0x10]
    destination_address := 4096
    destination_buffer := fun _ => 0
    bytes_read := 0
    bytes_written := 0
    instructions_read := 0
    instructions := []
    translation_map := [] }

def C4instruction : ZyrexAnalyzedInstruction :=
  { address_offset := 0
    address := 65536
    instruction := { length := 2, mnemonic := .JNZ, attrib_is_relative := true,
                     attrib_has_modrm := false, imm0 := ⟨1, 8, 0x10, true⟩,
                     disp := ⟨0, 0⟩, modrm := ⟨0, 0⟩ }
    has_relative_target := true
    has_external_target := true
    is_internal_target := false
    absolute_target_address := 100000
    incoming := []
    outgoing := none }

def C5context : ZyrexTranslationContext :=
  { source := [0x48, 0x8B, 0x05, 0x10, 0x00, 0x00, 0x00]
    destination_address := 4160
    destination_buffer := fun _ => 0
    bytes_read := 0
    bytes_written := 0
    instructions_read := 0
    instructions := []
    translation_map := [] }

def C5instruction : ZyrexAnalyzedInstruction :=
  { address_offset := 0
    address := 4096
    instruction := { length := 7, mnemonic := .other, attrib_is_relative := true,
                     attrib_has_modrm := true, imm0 := ⟨0, 0, 0, false⟩,
                     disp := ⟨3, 32⟩, modrm := ⟨0, 5⟩ }
    has_relative_target := true
    has_external_target := true
    is_internal_target := false
    absolute_target_address := 4119
    incoming := []
    outgoing := none }

def C3context : ZyrexTranslationContext :=
  { source := [0xE3, 0x64]
    destination_address := 4096
    destination_buffer := fun _ => 0
    bytes_read := 0
    bytes_written := 0
    instructions_read := 0
    instructions := []
    translation_map := [] }

def C3instruction : ZyrexAnalyzedInstruction :=
  { address_offset := 0
    address := 65536
    instruction := { length := 2, mnemonic := .JECXZ, attrib_is_relative := true,
                     attrib_has_modrm := false, imm0 := ⟨1, 8, 0x64, true⟩,
                     disp := ⟨0, 0⟩, modrm := ⟨0, 0⟩ }
    has_relative_target := true
    has_external_target := true
    is_internal_target := false
    absolute_target_address := 100000
    incoming := []
    outgoing := none }

def C1i0 : ZyrexAnalyzedInstruction :=
  { address_offset := 0
    address := 4096
    instruction := { length := 2, mnemonic := .JMP, attrib_is_relative := true,
                     attrib_has_modrm := false, imm0 := ⟨1, 8, 0, true⟩,
                     disp := ⟨0, 0⟩, modrm := ⟨0, 0⟩ }
    has_relative_target := true
    has_external_target := false
    is_internal_target := false
    absolute_target_address := 4098
    incoming := []
    outgoing := some 1 }

def C1i1 : ZyrexAnalyzedInstruction :=
  { address_offset := 2
    address := 4098
    instruction := { length := 1, mnemonic := .other, attrib_is_relative := false,
                     attrib_has_modrm := false, imm0 := ⟨0, 0, 0, false⟩,
                     disp := ⟨0, 0⟩, modrm := ⟨0, 0⟩ }
    has_relative_target := false
    has_external_target := false
    is_internal_target := true
    absolute_target_address := 0
    incoming := [0]
    outgoing := none }

def C1fixcontext : ZyrexTranslationContext :=
  { source := [0xEB, 0x00, 0x90]
    destination_address := 8192
    destination_buffer := fun _ => 0
    bytes_read := 3
    bytes_written := 3
    instructions_read := 2
    instructions := [C1i0, C1i1]
    translation_map := [⟨0, 0⟩, ⟨2, 2⟩]  }

/-! ## Theorems -/

theorem toBytesLE_length (n v : Nat) : (toBytesLE n v).length = n := by
  induction n generalizing v with
  | zero => rfl
  | succ n ih => simp [toBytesLE, ih]

theorem storeBytes_of_out (buf : Nat → Nat) (off : Nat) (bs : List Nat) (x : Nat)
    (h : x < off ∨ off + bs.length ≤ x) : storeBytes buf off bs x = buf x := by
  unfold storeBytes
  rw [if_neg]
  omega

theorem storeBytes_of_in (buf : Nat → Nat) (off : Nat) (bs : List Nat) (x : Nat)
    (h1 : off ≤ x) (h2 : x < off + bs.length) :
    storeBytes buf off bs x = bs.getD (x - off) 0 := by
  unfold storeBytes
  rw [if_pos ⟨h1, h2⟩]

theorem readBytesLE_congr (f g : Nat → Nat) (off n : Nat)
    (h : ∀ k, k < n → f (off + k) = g (off + k)) :
    readBytesLE f off n = readBytesLE g off n := by
  induction n generalizing off with
  | zero => rfl
  | succ n ih =>
    unfold readBytesLE
    rw [ih (off + 1) (fun k hk => by
      have := h (1 + k) (by omega)
      simpa [Nat.add_assoc] using this)]
    have h0 := h 0 (by omega)
    simp only [Nat.add_zero] at h0
    rw [h0]

theorem readBytesLE_storeBytes (buf : Nat → Nat) (off : Nat) (bs : List Nat) :
    readBytesLE (storeBytes buf off bs) off bs.length = natFromBytesLE bs := by
  induction bs generalizing buf off with
  | nil => rfl
  | cons b t ih =>
    simp only [List.length_cons, readBytesLE, natFromBytesLE]
    have hb : storeBytes buf off (b :: t) off = b := by
      rw [storeBytes_of_in buf off (b :: t) off (le_refl off) (by simp)]
      simp
    rw [hb]
    have ht : readBytesLE (storeBytes buf off (b :: t)) (off + 1) t.length
        = readBytesLE (storeBytes buf (off + 1) t) (off + 1) t.length := by
      apply readBytesLE_congr
      intro k hk
      rw [storeBytes_of_in buf off (b :: t) (off + 1 + k) (by omega)
        (by simp only [List.length_cons]; omega)]
      rw [storeBytes_of_in buf (off + 1) t (off + 1 + k) (by omega) (by omega)]
      have e1 : off + 1 + k - off = k + 1 := by omega
      have e2 : off + 1 + k - (off + 1) = k := by omega
      rw [e1, e2, List.getD_cons_succ]
    rw [ht, ih]

theorem mod_mul_256_decomp (v M : Nat) (hM : 0 < M) :
    v % (256 * M) = v % 256 + 256 * (v / 256 % M) := by
  conv_lhs => rw [← Nat.div_add_mod v 256, ← Nat.div_add_mod (v / 256) M]
  have h1 : 256 * (M * (v / 256 / M) + v / 256 % M) + v % 256
      = 256 * M * (v / 256 / M) + (256 * (v / 256 % M) + v % 256) := by ring
  rw [h1, Nat.mul_add_mod]
  have ha : v / 256 % M < M := Nat.mod_lt _ hM
  have hb : v % 256 < 256 := Nat.mod_lt _ (by norm_num)
  rw [Nat.mod_eq_of_lt (by omega)]
  omega

theorem natFromBytesLE_toBytesLE (n v : Nat) :
    natFromBytesLE (toBytesLE n v) = v % 2 ^ (8 * n) := by
  induction n generalizing v with
  | zero => simp [toBytesLE, natFromBytesLE, Nat.mod_one]
  | succ n ih =>
    unfold toBytesLE natFromBytesLE
    rw [ih]
    have h2 : 2 ^ (8 * (n + 1)) = 256 * 2 ^ (8 * n) := by
      rw [show 8 * (n + 1) = 8 + 8 * n by ring, pow_add]
      norm_num
    rw [h2, mod_mul_256_decomp v (2 ^ (8 * n)) (Nat.pos_pow_of_pos _ (by norm_num))]

theorem natFromBytesLE_lt (bs : List Nat) (h : ∀ b ∈ bs, b < 256) :
    natFromBytesLE bs < 2 ^ (8 * bs.length) := by
  induction bs with
  | nil => simp [natFromBytesLE]
  | cons b t ih =>
    unfold natFromBytesLE
    have hb : b < 256 := h b (by simp)
    have ht := ih (fun x hx => h x (by simp [hx]))
    have h2 : 2 ^ (8 * (b :: t).length) = 256 * 2 ^ (8 * t.length) := by
      simp only [List.length_cons]
      rw [show 8 * (t.length + 1) = 8 + 8 * t.length by ring, pow_add]
      norm_num
    rw [h2]
    omega

theorem pow_two_split (w : Nat) (hw : 0 < w) : (2 : Int) ^ w = 2 * 2 ^ (w - 1) := by
  conv_lhs => rw [show w = (w - 1) + 1 by omega]
  rw [pow_succ]
  ring

theorem wrapI_eq_self (w : Nat) (x : Int) (hw : 0 < w)
    (h1 : -(2 ^ (w - 1)) ≤ x) (h2 : x < 2 ^ (w - 1)) : wrapI w x = x := by
  unfold wrapI
  have hs := pow_two_split w hw
  have hlo : 0 ≤ x + 2 ^ (w - 1) := by omega
  have hhi : x + 2 ^ (w - 1) < 2 ^ w := by omega
  rw [Int.emod_eq_of_lt hlo hhi]
  ring

theorem asSigned_emod (w : Nat) (v : Int) (hw : 0 < w)
    (h1 : intMinOf w ≤ v) (h2 : v ≤ intMaxOf w) :
    asSigned w ((v % 2 ^ w).toNat) = v := by
  unfold asSigned
  unfold intMinOf at h1
  unfold intMaxOf at h2
  have hcast : ((2 ^ (w - 1) : Nat) : Int) = (2 : Int) ^ (w - 1) := by push_cast; ring
  have hcast2 : ((2 ^ w : Nat) : Int) = (2 : Int) ^ w := by push_cast; ring
  have hs := pow_two_split w hw
  have hp : (0 : Int) < 2 ^ (w - 1) := by positivity
  rcases le_or_lt 0 v with hv | hv
  · rw [Int.emod_eq_of_lt hv (by omega)]
    split <;> omega
  · have he : v % 2 ^ w = v + 2 ^ w := by
      have hsh := Int.add_mul_emod_self_left (a := v) (b := 2 ^ w) (c := 1)
      rw [mul_one] at hsh
      rw [← hsh]
      exact Int.emod_eq_of_lt (by omega) (by omega)
    rw [he]
    split <;> omega

theorem instrAt_set_self (l : List ZyrexAnalyzedInstruction) (k : Nat)
    (a : ZyrexAnalyzedInstruction) (h : k < l.length) : instrAt (l.set k a) k = a := by
  unfold instrAt
  rw [List.getD_eq_getElem?_getD, List.getElem?_set_self h]
  rfl

theorem instrAt_set_ne (l : List ZyrexAnalyzedInstruction) (k m : Nat)
    (a : ZyrexAnalyzedInstruction) (h : k ≠ m) : instrAt (l.set k a) m = instrAt l m := by
  unfold instrAt
  rw [List.getD_eq_getElem?_getD, List.getD_eq_getElem?_getD, List.getElem?_set_ne h]

theorem instrAt_of_le_length (l : List ZyrexAnalyzedInstruction) (k : Nat)
    (h : l.length ≤ k) : instrAt l k = default := by
  unfold instrAt
  rw [List.getD_eq_getElem?_getD, List.getElem?_eq_none h]
  rfl

theorem targets_congr (l₀ s : List ZyrexAnalyzedInstruction) (hs : listStatics l₀ s)
    (i j : Nat) : targets s i j = targets l₀ i j := by
  obtain ⟨-, hf⟩ := hs
  obtain ⟨-, ha, -, hr, ht⟩ := hf j
  obtain ⟨-, ha2, -, -, -⟩ := hf i
  unfold targets
  rw [hr, ht, ha2]

theorem listStatics_refl (l : List ZyrexAnalyzedInstruction) : listStatics l l :=
  ⟨rfl, fun _ => ⟨rfl, rfl, rfl, rfl, rfl⟩⟩

theorem instrAt_set (l : List ZyrexAnalyzedInstruction) (k m : Nat)
    (a : ZyrexAnalyzedInstruction) :
    instrAt (l.set k a) m = if k = m ∧ k < l.length then a else instrAt l m := by
  unfold instrAt
  rw [List.getD_eq_getElem?_getD, List.getD_eq_getElem?_getD, List.getElem?_set]
  by_cases h1 : k = m
  · subst h1
    by_cases h2 : k < l.length
    · simp [h2]
    · simp only [h2, and_false, if_false, if_true, if_neg h2, true_and]
      rw [List.getElem?_eq_none (by omega)]
  · simp [h1]

theorem targets_iff (l : List ZyrexAnalyzedInstruction) (i j : Nat) :
    targets l i j = true ↔ ((instrAt l j).has_relative_target = true ∧
      (instrAt l j).absolute_target_address = (instrAt l i).address) := by
  simp [targets, Bool.and_eq_true]

theorem targets_lt (l : List ZyrexAnalyzedInstruction) (i j : Nat)
    (h : targets l i j = true) : j < l.length := by
  by_contra hj
  push_neg at hj
  have hrel := ((targets_iff l i j).mp h).1
  rw [instrAt_of_le_length l j hj] at hrel
  exact absurd hrel (by decide)

theorem crossRefBody_spec (l₀ s : List ZyrexAnalyzedInstruction) (hs : listStatics l₀ s)
    (i j : Nat) (hi : i < l₀.length) :
    listStatics l₀ (crossRefBody s i j) ∧
    (∀ k,
      ((instrAt (crossRefBody s i j) k).has_external_target = true ↔
        ((instrAt s k).has_external_target = true ∧ ¬(k = j ∧ targets l₀ i k = true))) ∧
      ((instrAt (crossRefBody s i j) k).outgoing
        = if k = j ∧ targets l₀ i k = true then some i else (instrAt s k).outgoing) ∧
      ((instrAt (crossRefBody s i j) k).is_internal_target = true ↔
        ((instrAt s k).is_internal_target = true ∨ (k = i ∧ targets l₀ i j = true))) ∧
      ((instrAt (crossRefBody s i j) k).incoming
        = (instrAt s k).incoming ++ if k = i ∧ targets l₀ i j = true then [j] else [])) := by
  obtain ⟨hlen, hstat⟩ := hs
  have hcond : ((instrAt s j).has_relative_target
      && ((instrAt s j).absolute_target_address == (instrAt s i).address))
      = targets l₀ i j := targets_congr l₀ s ⟨hlen, hstat⟩ i j
  by_cases ht : targets l₀ i j = true
  · have hjs : j < s.length := by
      have := targets_lt l₀ i j ht
      omega
    have his : i < s.length := by omega
    by_cases hij : i = j
    · subst hij
      have hbody : crossRefBody s i i = s.set i
          { instrAt s i with
            has_external_target := false
            outgoing := some i
            is_internal_target := true
            incoming := (instrAt s i).incoming ++ [i] } := by
        simp only [crossRefBody]
        rw [hcond, if_pos ht]
        rw [instrAt_set_self s i _ his]
        rw [List.set_set]
      rw [hbody]
      refine ⟨⟨by simp [hlen], fun k => ?_⟩, fun k => ?_⟩
      · rw [instrAt_set]
        by_cases hki : i = k
        · subst hki
          rw [if_pos ⟨rfl, his⟩]
          exact hstat i
        · rw [if_neg (by tauto)]
          exact hstat k
      · rw [instrAt_set]
        by_cases hki : i = k
        · subst hki
          rw [if_pos ⟨rfl, his⟩]
          refine ⟨by simp [ht], by simp [ht], by simp [ht], by simp [ht]⟩
        · rw [if_neg (by tauto)]
          have hki2 : ¬(k = i) := fun h => hki h.symm
          refine ⟨by simp [hki2], by simp [hki2], by simp [hki2], by simp [hki2]⟩
    · have hbody : crossRefBody s i j
          = (s.set j { instrAt s j with has_external_target := false, outgoing := some i }).set i
            { instrAt s i with
              is_internal_target := true
              incoming := (instrAt s i).incoming ++ [j] } := by
        simp only [crossRefBody]
        rw [hcond, if_pos ht]
        rw [instrAt_set_ne s j i _ (fun h => hij h.symm)]
      rw [hbody]
      refine ⟨⟨by simp [hlen], fun k => ?_⟩, fun k => ?_⟩
      · rw [instrAt_set, instrAt_set]
        by_cases hki : i = k
        · subst hki
          rw [if_pos ⟨rfl, by simpa using his⟩]
          exact hstat i
        · rw [if_neg (by tauto)]
          by_cases hkj : j = k
          · subst hkj
            rw [if_pos ⟨rfl, hjs⟩]
            exact hstat j
          · rw [if_neg (by tauto)]
            exact hstat k
      · rw [instrAt_set, instrAt_set]
        by_cases hki : i = k
        · subst hki
          rw [if_pos ⟨rfl, by simpa using his⟩]
          have hij2 : ¬(i = j) := hij
          refine ⟨by simp [hij2], by simp [hij2], by simp [ht], by simp [ht]⟩
        · rw [if_neg (by tauto)]
          have hki2 : ¬(k = i) := fun h => hki h.symm
          by_cases hkj : j = k
          · subst hkj
            rw [if_pos ⟨rfl, hjs⟩]
            refine ⟨by simp [ht], by simp [ht], by simp [hki2], by simp [hki2]⟩
          · rw [if_neg (by tauto)]
            have hkj2 : ¬(k = j) := fun h => hkj h.symm
            refine ⟨by simp [hkj2], by simp [hkj2], by simp [hki2], by simp [hki2]⟩
  · have hbody : crossRefBody s i j = s := by
      simp only [crossRefBody]
      rw [hcond, if_neg ht]
    rw [hbody]
    refine ⟨⟨hlen, hstat⟩, fun k => ?_⟩
    by_cases hkj : k = j
    · subst hkj
      refine ⟨by simp [ht], by simp [ht], by simp [ht], by simp [ht]⟩
    · refine ⟨by simp [hkj], by simp [hkj], by simp [ht], by simp [ht]⟩

theorem crossRefHalf_spec (l₀ : List ZyrexAnalyzedInstruction) (i : Nat)
    (hi : i < l₀.length) :
    ∀ (js : List Nat) (s : List ZyrexAnalyzedInstruction), listStatics l₀ s →
    listStatics l₀ (crossRefHalf s i js) ∧
    (∀ k,
      ((instrAt (crossRefHalf s i js) k).has_external_target = true ↔
        ((instrAt s k).has_external_target = true ∧ ¬(k ∈ js ∧ targets l₀ i k = true))) ∧
      ((instrAt (crossRefHalf s i js) k).outgoing
        = if k ∈ js ∧ targets l₀ i k = true then some i else (instrAt s k).outgoing) ∧
      ((instrAt (crossRefHalf s i js) k).is_internal_target = true ↔
        ((instrAt s k).is_internal_target = true ∨
          (k = i ∧ ∃ j ∈ js, targets l₀ i j = true))) ∧
      ((instrAt (crossRefHalf s i js) k).incoming
        = (instrAt s k).incoming ++
            if k = i then js.filter (fun j => targets l₀ i j) else [])) := by
  intro js
  induction js with
  | nil =>
    intro s hs
    have h0 : crossRefHalf s i [] = s := rfl
    rw [h0]
    refine ⟨hs, fun k => ⟨by simp, by simp, by simp, by simp⟩⟩
  | cons j js ih =>
    intro s hs
    obtain ⟨hb_st, hb_f⟩ := crossRefBody_spec l₀ s hs i j hi
    obtain ⟨ih_st, ih_f⟩ := ih (crossRefBody s i j) hb_st
    have hstep : crossRefHalf s i (j :: js) = crossRefHalf (crossRefBody s i j) i js := rfl
    rw [hstep]
    refine ⟨ih_st, fun k => ⟨?_, ?_, ?_, ?_⟩⟩
    · rw [(ih_f k).1, (hb_f k).1]
      simp only [List.mem_cons]
      tauto
    · rw [(ih_f k).2.1, (hb_f k).2.1]
      simp only [List.mem_cons]
      by_cases hM : targets l₀ i k = true
      · by_cases hkjs : k ∈ js
        · rw [if_pos ⟨hkjs, hM⟩, if_pos ⟨Or.inr hkjs, hM⟩]
        · rw [if_neg (by tauto)]
          by_cases hkj : k = j
          · rw [if_pos ⟨hkj, hM⟩, if_pos ⟨Or.inl hkj, hM⟩]
          · rw [if_neg (by tauto), if_neg (by tauto)]
      · rw [if_neg (by tauto), if_neg (by tauto), if_neg (by tauto)]
    · rw [(ih_f k).2.2.1, (hb_f k).2.2.1]
      simp only [List.mem_cons]
      constructor
      · rintro ((h | ⟨hk, hj⟩) | ⟨hk, j', hj', hm⟩)
        · exact Or.inl h
        · exact Or.inr ⟨hk, j, Or.inl rfl, hj⟩
        · exact Or.inr ⟨hk, j', Or.inr hj', hm⟩
      · rintro (h | ⟨hk, j', (rfl | hj'), hm⟩)
        · exact Or.inl (Or.inl h)
        · exact Or.inl (Or.inr ⟨hk, hm⟩)
        · exact Or.inr ⟨hk, j', hj', hm⟩
    · rw [(ih_f k).2.2.2, (hb_f k).2.2.2]
      by_cases hki : k = i
      · subst hki
        by_cases htj : targets l₀ k j = true
        · simp [htj, List.filter_cons]
        · simp [htj, List.filter_cons]
      · simp [hki]

theorem crossRefUpTo_succ (s : List ZyrexAnalyzedInstruction) (n p : Nat) :
    crossRefUpTo s n (p + 1) = crossRefHalf (crossRefUpTo s n p) p (List.range n) := by
  unfold crossRefUpTo
  rw [List.range_succ, List.foldl_append]
  rfl

theorem crossRefUpTo_spec (l₀ s : List ZyrexAnalyzedInstruction) (n : Nat)
    (hn : n = l₀.length) (hs : listStatics l₀ s) :
    ∀ (p : Nat), p ≤ n →
    listStatics l₀ (crossRefUpTo s n p) ∧
    (∀ k,
      ((instrAt (crossRefUpTo s n p) k).has_external_target = true ↔
        ((instrAt s k).has_external_target = true ∧
          ¬∃ i, i < p ∧ targets l₀ i k = true)) ∧
      ((instrAt (crossRefUpTo s n p) k).outgoing
        = match lastMatchIdx l₀ k p with
          | some i => some i
          | none => (instrAt s k).outgoing) ∧
      ((instrAt (crossRefUpTo s n p) k).is_internal_target = true ↔
        ((instrAt s k).is_internal_target = true ∨
          (k < p ∧ ∃ j ∈ List.range n, targets l₀ k j = true))) ∧
      ((instrAt (crossRefUpTo s n p) k).incoming
        = (instrAt s k).incoming ++
            if k < p then (List.range n).filter (fun j => targets l₀ k j) else [])) := by
  intro p
  induction p with
  | zero =>
    intro _
    have h0 : crossRefUpTo s n 0 = s := rfl
    rw [h0]
    refine ⟨hs, fun k => ⟨by simp, by simp [lastMatchIdx], by simp, by simp⟩⟩
  | succ p ih =>
    intro hp
    obtain ⟨ih_st, ih_f⟩ := ih (by omega)
    have hpl : p < l₀.length := by omega
    obtain ⟨in_st, in_f⟩ := crossRefHalf_spec l₀ p hpl (List.range n) (crossRefUpTo s n p) ih_st
    rw [crossRefUpTo_succ]
    refine ⟨in_st, fun k => ⟨?_, ?_, ?_, ?_⟩⟩
    · rw [(in_f k).1, (ih_f k).1]
      have hsplit : (∃ i, i < p + 1 ∧ targets l₀ i k = true) ↔
          ((∃ i, i < p ∧ targets l₀ i k = true) ∨ targets l₀ p k = true) := by
        constructor
        · rintro ⟨i, hi, hm⟩
          rcases Nat.lt_succ_iff_lt_or_eq.mp hi with h | h
          · exact Or.inl ⟨i, h, hm⟩
          · subst h
            exact Or.inr hm
        · rintro (⟨i, hi, hm⟩ | hm)
          · exact ⟨i, by omega, hm⟩
          · exact ⟨p, by omega, hm⟩
      have hkn : targets l₀ p k = true → k ∈ List.range n :=
        fun h => List.mem_range.mpr (by rw [hn]; exact targets_lt l₀ p k h)
      rw [hsplit]
      constructor
      · rintro ⟨⟨he, hne⟩, hnp⟩
        refine ⟨he, ?_⟩
        rintro (hex | hm)
        · exact hne hex
        · exact hnp ⟨hkn hm, hm⟩
      · rintro ⟨he, hn2⟩
        exact ⟨⟨he, fun hex => hn2 (Or.inl hex)⟩, fun hc => hn2 (Or.inr hc.2)⟩
    · rw [(in_f k).2.1, (ih_f k).2.1]
      by_cases hM : targets l₀ p k = true
      · have hkn : k ∈ List.range n := List.mem_range.mpr (by
          rw [hn]; exact targets_lt l₀ p k hM)
        rw [if_pos ⟨hkn, hM⟩]
        simp [lastMatchIdx, hM]
      · rw [if_neg (by tauto)]
        simp [lastMatchIdx, hM]
    · rw [(in_f k).2.2.1, (ih_f k).2.2.1]
      by_cases hkp : k = p
      · subst hkp
        have h1 : ¬(k < k) := by omega
        have h2 : k < k + 1 := by omega
        simp only [h1, false_and, or_false, h2, true_and]
      · have h3 : (k < p) ↔ (k < p + 1) := by omega
        rw [h3]
        constructor
        · rintro ((h | h) | ⟨hk, -⟩)
          · exact Or.inl h
          · exact Or.inr h
          · exact absurd hk hkp
        · exact fun h => Or.inl h
    · rw [(in_f k).2.2.2, (ih_f k).2.2.2]
      by_cases hkp : k = p
      · subst hkp
        rw [if_neg (show ¬(k < k) by omega)]
        rw [if_pos (show k = k from rfl)]
        rw [if_pos (show k < k + 1 by omega)]
        simp
      · rw [if_neg hkp, List.append_nil]
        by_cases hkpp : k < p
        · rw [if_pos hkpp, if_pos (by omega)]
        · rw [if_neg hkpp, if_neg (by omega)]

theorem crossRefPass_spec (l : List ZyrexAnalyzedInstruction) :
    listStatics l (crossRefPass l) ∧
    (∀ k,
      ((instrAt (crossRefPass l) k).has_external_target = true ↔
        ((instrAt l k).has_external_target = true ∧
          ¬∃ i, i < l.length ∧ targets l i k = true)) ∧
      ((instrAt (crossRefPass l) k).outgoing
        = match lastMatchIdx l k l.length with
          | some i => some i
          | none => (instrAt l k).outgoing) ∧
      ((instrAt (crossRefPass l) k).is_internal_target = true ↔
        ((instrAt l k).is_internal_target = true ∨
          (k < l.length ∧ ∃ j ∈ List.range l.length, targets l k j = true))) ∧
      ((instrAt (crossRefPass l) k).incoming
        = (instrAt l k).incoming ++
            if k < l.length then
              (List.range l.length).filter (fun j => targets l k j)
            else [])) := by
  have h : crossRefPass l = crossRefUpTo l l.length l.length := rfl
  rw [h]
  exact crossRefUpTo_spec l l l.length rfl (listStatics_refl l) l.length (le_refl _)

theorem instrAt_eq_getElem (l : List ZyrexAnalyzedInstruction) (k : Nat)
    (h : k < l.length) : instrAt l k = l[k] := by
  unfold instrAt
  rw [List.getD_eq_getElem?_getD, List.getElem?_eq_getElem h]
  rfl

theorem instrAt_mem (l : List ZyrexAnalyzedInstruction) (k : Nat)
    (h : k < l.length) : instrAt l k ∈ l := by
  rw [instrAt_eq_getElem l k h]
  exact List.getElem_mem h

theorem lenSum_nil : lenSum [] = 0 := rfl

theorem lenSum_cons (it : ZyrexAnalyzedInstruction) (rest : List ZyrexAnalyzedInstruction) :
    lenSum (it :: rest) = it.instruction.length + lenSum rest := by
  simp [lenSum]

theorem analyzeFirstPass_sound (decode : List Nat → Option ZydisDecodedInstruction)
    (calcAbsoluteAddress : ZydisDecodedInstruction → Nat → Option Nat)
    (buffer : List Nat) (base bta : Nat) :
    ∀ (fuel offset : Nat) (acc l : List ZyrexAnalyzedInstruction) (br : Nat),
    analyzeFirstPass decode calcAbsoluteAddress buffer base bta fuel offset acc
      = some (l, br) →
    ∃ post, l = acc ++ post ∧
      chainFrom offset post ∧
      br = offset + lenSum post ∧
      bta ≤ br ∧
      (∀ it ∈ post,
        it.has_external_target = it.has_relative_target ∧
        it.is_internal_target = false ∧
        it.outgoing = none ∧
        it.incoming = [] ∧
        it.address = base + it.address_offset ∧
        it.address_offset < bta ∧
        decode (buffer.drop it.address_offset) = some it.instruction) := by
  intro fuel
  induction fuel with
  | zero =>
    intro offset acc l br h
    unfold analyzeFirstPass at h
    by_cases hoff : bta ≤ offset
    · rw [if_pos hoff] at h
      simp only [Option.some.injEq, Prod.mk.injEq] at h
      obtain ⟨hacc, hbr2⟩ := h
      subst hacc
      subst hbr2
      refine ⟨[], by simp, trivial, by simp [lenSum_nil], hoff, ?_⟩
      intro it hit
      simp at hit
    · rw [if_neg hoff] at h
      simp at h
  | succ fuel ih =>
    intro offset acc l br h
    unfold analyzeFirstPass at h
    by_cases hoff : bta ≤ offset
    · rw [if_pos hoff] at h
      simp only [Option.some.injEq, Prod.mk.injEq] at h
      obtain ⟨hacc, hbr2⟩ := h
      subst hacc
      subst hbr2
      refine ⟨[], by simp, trivial, by simp [lenSum_nil], hoff, ?_⟩
      intro it hit
      simp at hit
    · rw [if_neg hoff] at h
      split at h
      · exact absurd h (by simp)
      · rename_i ins hd
        split at h
        · exact absurd h (by simp)
        · rename_i target hc
          obtain ⟨post, hl, hchain, hbr, hbta, hinit⟩ := ih _ _ _ _ h
          refine ⟨{ address_offset := offset
                    address := base + offset
                    instruction := ins
                    has_relative_target := ins.attrib_is_relative
                    has_external_target := ins.attrib_is_relative
                    is_internal_target := false
                    absolute_target_address := target
                    incoming := []
                    outgoing := none } :: post, ?_, ?_, ?_, ?_, ?_⟩
          · rw [hl]
            simp
          · exact ⟨rfl, hchain⟩
          · rw [lenSum_cons]
            simp only
            omega
          · omega
          · intro it hit
            rcases List.mem_cons.mp hit with hit | hit
            · subst hit
              refine ⟨rfl, rfl, rfl, rfl, rfl, by show offset < bta; omega, hd⟩
            · exact hinit it hit

theorem instrAt_cons_zero (it : ZyrexAnalyzedInstruction)
    (rest : List ZyrexAnalyzedInstruction) : instrAt (it :: rest) 0 = it := rfl

theorem instrAt_cons_succ (it : ZyrexAnalyzedInstruction)
    (rest : List ZyrexAnalyzedInstruction) (m : Nat) :
    instrAt (it :: rest) (m + 1) = instrAt rest m := rfl

theorem chainFrom_offsets (post : List ZyrexAnalyzedInstruction) :
    ∀ (offset m : Nat), chainFrom offset post → m < post.length →
    (instrAt post m).address_offset = offset + lenSum (post.take m) := by
  induction post with
  | nil =>
    intro offset m _ hm
    simp at hm
  | cons it rest ih =>
    intro offset m hch hm
    obtain ⟨h1, h2⟩ := hch
    cases m with
    | zero =>
      rw [instrAt_cons_zero]
      simp [h1, lenSum_nil]
    | succ m =>
      rw [instrAt_cons_succ]
      rw [ih (offset + it.instruction.length) m h2 (by simpa using hm)]
      rw [List.take_succ_cons, lenSum_cons]
      omega

theorem lenSum_append (a b : List ZyrexAnalyzedInstruction) :
    lenSum (a ++ b) = lenSum a + lenSum b := by
  simp [lenSum]

theorem lenSum_take_succ (l : List ZyrexAnalyzedInstruction) (m : Nat)
    (hm : m < l.length) :
    lenSum (l.take (m + 1)) = lenSum (l.take m) + (instrAt l m).instruction.length := by
  rw [List.take_succ, lenSum_append, List.getElem?_eq_getElem hm]
  rw [instrAt_eq_getElem l m hm]
  simp [lenSum]

theorem lenSum_take_le (l : List ZyrexAnalyzedInstruction) :
    ∀ m m', m ≤ m' → lenSum (l.take m) ≤ lenSum (l.take m') := by
  intro m m'
  induction m' with
  | zero =>
    intro hm
    have : m = 0 := by omega
    simp [this]
  | succ m' ihm =>
    intro hm
    by_cases he : m = m' + 1
    · simp [he]
    · have h1 : m ≤ m' := by omega
      by_cases hl : m' < l.length
      · rw [lenSum_take_succ l m' hl]
        have := ihm h1
        omega
      · have : l.take (m' + 1) = l.take m' := by
          rw [List.take_of_length_le (by omega), List.take_of_length_le (by omega)]
        rw [this]
        exact ihm h1

theorem chainFrom_mono (post : List ZyrexAnalyzedInstruction) (offset : Nat)
    (h : chainFrom offset post)
    (hpos : ∀ it ∈ post, 0 < it.instruction.length) :
    ∀ a b, a < b → b < post.length →
    (instrAt post a).address_offset < (instrAt post b).address_offset := by
  intro a b hab hb
  rw [chainFrom_offsets post offset a h (by omega),
      chainFrom_offsets post offset b h hb]
  have h1 : lenSum (post.take (a + 1)) = lenSum (post.take a)
      + (instrAt post a).instruction.length := lenSum_take_succ post a (by omega)
  have h2 : lenSum (post.take (a + 1)) ≤ lenSum (post.take b) :=
    lenSum_take_le post (a + 1) b (by omega)
  have h3 : 0 < (instrAt post a).instruction.length :=
    hpos _ (instrAt_mem post a (by omega))
  omega

theorem lenSum_take_of_statics (l₀ s : List ZyrexAnalyzedInstruction)
    (h : listStatics l₀ s) (m : Nat) : lenSum (s.take m) = lenSum (l₀.take m) := by
  unfold lenSum
  congr 1
  apply List.ext_getElem
  · simp [h.1]
  · intro i h1 h2
    simp only [List.getElem_map, List.getElem_take]
    have hi1 : i < s.length := by
      simp at h1
      omega
    have hi2 : i < l₀.length := by
      simp at h2
      omega
    rw [← instrAt_eq_getElem s i hi1, ← instrAt_eq_getElem l₀ i hi2]
    rw [(h.2 i).2.2.1]

theorem lenSum_of_statics (l₀ s : List ZyrexAnalyzedInstruction)
    (h : listStatics l₀ s) : lenSum s = lenSum l₀ := by
  have h1 := lenSum_take_of_statics l₀ s h s.length
  rw [List.take_length] at h1
  rw [h.1] at h1
  rw [List.take_length] at h1
  exact h1

theorem lastMatchIdx_eq_none (l : List ZyrexAnalyzedInstruction) (k : Nat) :
    ∀ p, (lastMatchIdx l k p = none ↔ ∀ i, i < p → ¬targets l i k = true) := by
  intro p
  induction p with
  | zero => simp [lastMatchIdx]
  | succ p ih =>
    unfold lastMatchIdx
    by_cases ht : targets l p k = true
    · rw [if_pos ht]
      simp only [reduceCtorEq, false_iff]
      push_neg
      exact ⟨p, by omega, ht⟩
    · rw [if_neg ht, ih]
      constructor
      · intro hall i hi
        rcases Nat.lt_succ_iff_lt_or_eq.mp hi with h | h
        · exact hall i h
        · subst h
          exact ht
      · intro hall i hi
        exact hall i (by omega)

theorem lastMatchIdx_unique (l : List ZyrexAnalyzedInstruction) (k i₀ : Nat) :
    ∀ p, i₀ < p → targets l i₀ k = true →
    (∀ i, i < p → targets l i k = true → i = i₀) →
    lastMatchIdx l k p = some i₀ := by
  intro p
  induction p with
  | zero =>
    intro h
    omega
  | succ p ih =>
    intro hi₀ hm huniq
    unfold lastMatchIdx
    by_cases ht : targets l p k = true
    · rw [if_pos ht]
      rw [huniq p (by omega) ht]
    · rw [if_neg ht]
      have hne : i₀ ≠ p := fun h => ht (h ▸ hm)
      exact ih (by omega) hm (fun i hi hm2 => huniq i (by omega) hm2)

theorem ZyrexAnalyzeInstructions_decompose
    (decode : List Nat → Option ZydisDecodedInstruction)
    (calcAbsoluteAddress : ZydisDecodedInstruction → Nat → Option Nat)
    (buffer : List Nat) (buffer_address bytes_to_analyze : Nat)
    (l : List ZyrexAnalyzedInstruction) (bytes_read : Nat)
    (h : ZyrexAnalyzeInstructions decode calcAbsoluteAddress buffer buffer_address
        bytes_to_analyze = some (l, bytes_read)) :
    ∃ l₁, analyzeFirstPass decode calcAbsoluteAddress buffer buffer_address
        bytes_to_analyze bytes_to_analyze 0 [] = some (l₁, bytes_read) ∧
      l = crossRefPass l₁ := by
  unfold ZyrexAnalyzeInstructions at h
  split at h
  · simp at h
  · rename_i l₁ br₁ heq
    simp only [Option.some.injEq, Prod.mk.injEq] at h
    obtain ⟨h1, h2⟩ := h
    exact ⟨l₁, by rw [heq, h2], h1.symm⟩

theorem bool_false_of_not_true (b : Bool) (h : ¬b = true) : b = false := by
  cases b with
  | false => rfl
  | true => exact absurd rfl h

/-- C6: for every successful call to `ZyrexAnalyzeInstructions`, the returned
`bytes_read` equals the sum of the decoded lengths of all returned
instructions, `bytes_read` is at least `bytes_to_analyze`, and every proper
prefix of the instruction list covers fewer than `bytes_to_analyze` bytes
(decoding proceeds sequentially from offset 0 and stops at the first
instruction boundary at or past `bytes_to_analyze`, never splitting an
instruction). -/
theorem claim_C6_bytes_read
    (decode : List Nat → Option ZydisDecodedInstruction)
    (calcAbsoluteAddress : ZydisDecodedInstruction → Nat → Option Nat)
    (buffer : List Nat) (buffer_address bytes_to_analyze : Nat)
    (l : List ZyrexAnalyzedInstruction) (bytes_read : Nat)
    (h : ZyrexAnalyzeInstructions decode calcAbsoluteAddress buffer buffer_address
        bytes_to_analyze = some (l, bytes_read)) :
    bytes_read = lenSum l ∧
    bytes_to_analyze ≤ bytes_read ∧
    (∀ m, m < l.length → lenSum (l.take m) < bytes_to_analyze) := by
  obtain ⟨l₁, hfp, hcr⟩ := ZyrexAnalyzeInstructions_decompose decode
    calcAbsoluteAddress buffer buffer_address bytes_to_analyze l bytes_read h
  obtain ⟨post, hl, hchain, hbr, hbta, hinit⟩ := analyzeFirstPass_sound decode
    calcAbsoluteAddress buffer buffer_address bytes_to_analyze bytes_to_analyze
    0 [] l₁ bytes_read hfp
  simp only [List.nil_append] at hl
  subst hl
  subst hcr
  obtain ⟨hst, hf⟩ := crossRefPass_spec l₁
  refine ⟨?_, ?_, ?_⟩
  · rw [lenSum_of_statics l₁ _ hst]
    omega
  · omega
  · intro m hm
    rw [lenSum_take_of_statics l₁ _ hst m]
    have hm2 : m < l₁.length := by
      rw [hst.1] at hm
      exact hm
    have ho := chainFrom_offsets l₁ 0 m hchain hm2
    have hlt := (hinit _ (instrAt_mem l₁ m hm2)).2.2.2.2.2.1
    omega

/-- C7: after analysis, an instruction's `has_external_target` is set exactly
when it has a relative target and no analyzed instruction's `address` equals
its `absolute_target_address`; in particular a relative target inside the
analyzed span that does not fall on an instruction-start address is left
classified as external. -/
theorem claim_C7_external_target_no_match
    (decode : List Nat → Option ZydisDecodedInstruction)
    (calcAbsoluteAddress : ZydisDecodedInstruction → Nat → Option Nat)
    (buffer : List Nat) (buffer_address bytes_to_analyze : Nat)
    (l : List ZyrexAnalyzedInstruction) (bytes_read : Nat)
    (h : ZyrexAnalyzeInstructions decode calcAbsoluteAddress buffer buffer_address
        bytes_to_analyze = some (l, bytes_read))
    (k : Nat) (hk : k < l.length) :
    (instrAt l k).has_external_target = true ↔
      ((instrAt l k).has_relative_target = true ∧
        ∀ i, i < l.length →
          (instrAt l i).address ≠ (instrAt l k).absolute_target_address) := by
  obtain ⟨l₁, hfp, hcr⟩ := ZyrexAnalyzeInstructions_decompose decode
    calcAbsoluteAddress buffer buffer_address bytes_to_analyze l bytes_read h
  obtain ⟨post, hl, hchain, hbr, hbta, hinit⟩ := analyzeFirstPass_sound decode
    calcAbsoluteAddress buffer buffer_address bytes_to_analyze bytes_to_analyze
    0 [] l₁ bytes_read hfp
  simp only [List.nil_append] at hl
  subst hl
  subst hcr
  obtain ⟨hst, hf⟩ := crossRefPass_spec l₁
  have hk1 : k < l₁.length := by
    rw [hst.1] at hk
    exact hk
  have hini := hinit _ (instrAt_mem l₁ k hk1)
  obtain ⟨hsko, hska, hski, hskr, hskt⟩ := hst.2 k
  rw [(hf k).1]
  constructor
  · rintro ⟨hext1, hnm⟩
    rw [hini.1] at hext1
    refine ⟨by rw [hskr]; exact hext1, ?_⟩
    intro i hi heq
    obtain ⟨-, hsia, -, -, -⟩ := hst.2 i
    apply hnm
    refine ⟨i, by rw [hst.1] at hi; exact hi, (targets_iff l₁ i k).mpr ⟨hext1, ?_⟩⟩
    rw [hskt, hsia] at heq
    exact heq.symm ▸ rfl
  · rintro ⟨hrel, hfar⟩
    rw [hskr] at hrel
    refine ⟨by rw [hini.1]; exact hrel, ?_⟩
    rintro ⟨i, hi, hm⟩
    obtain ⟨-, htgt⟩ := (targets_iff l₁ i k).mp hm
    obtain ⟨-, hsia, -, -, -⟩ := hst.2 i
    exact hfar i (by rw [hst.1]; exact hi) (by rw [hsia, hskt, htgt])

/-- C8: after analysis, an instruction's `outgoing` is `none` exactly when it
has no internal target: `outgoing = none ↔ (¬has_relative_target ∨
has_external_target)`. -/
theorem claim_C8_outgoing_none_iff
    (decode : List Nat → Option ZydisDecodedInstruction)
    (calcAbsoluteAddress : ZydisDecodedInstruction → Nat → Option Nat)
    (buffer : List Nat) (buffer_address bytes_to_analyze : Nat)
    (l : List ZyrexAnalyzedInstruction) (bytes_read : Nat)
    (h : ZyrexAnalyzeInstructions decode calcAbsoluteAddress buffer buffer_address
        bytes_to_analyze = some (l, bytes_read))
    (k : Nat) (hk : k < l.length) :
    (instrAt l k).outgoing = none ↔
      (¬(instrAt l k).has_relative_target = true ∨
        (instrAt l k).has_external_target = true) := by
  obtain ⟨l₁, hfp, hcr⟩ := ZyrexAnalyzeInstructions_decompose decode
    calcAbsoluteAddress buffer buffer_address bytes_to_analyze l bytes_read h
  obtain ⟨post, hl, hchain, hbr, hbta, hinit⟩ := analyzeFirstPass_sound decode
    calcAbsoluteAddress buffer buffer_address bytes_to_analyze bytes_to_analyze
    0 [] l₁ bytes_read hfp
  simp only [List.nil_append] at hl
  subst hl
  subst hcr
  obtain ⟨hst, hf⟩ := crossRefPass_spec l₁
  have hk1 : k < l₁.length := by
    rw [hst.1] at hk
    exact hk
  have hini := hinit _ (instrAt_mem l₁ k hk1)
  obtain ⟨hsko, hska, hski, hskr, hskt⟩ := hst.2 k
  have hout := (hf k).2.1
  cases hlm : lastMatchIdx l₁ k l₁.length with
  | none =>
    have hout2 : (instrAt (crossRefPass l₁) k).outgoing = (instrAt l₁ k).outgoing := by
      rw [hout, hlm]
    have hall := (lastMatchIdx_eq_none l₁ k l₁.length).mp hlm
    rw [hout2, hini.2.2.1]
    simp only [true_iff]
    by_cases hrel1 : (instrAt l₁ k).has_relative_target = true
    · right
      refine ((hf k).1).mpr ⟨by rw [hini.1]; exact hrel1, ?_⟩
      rintro ⟨i, hi, hm⟩
      exact hall i hi hm
    · left
      rw [hskr]
      exact hrel1
  | some i₀ =>
    have hout2 : (instrAt (crossRefPass l₁) k).outgoing = some i₀ := by
      rw [hout, hlm]
    have hex : ∃ i, i < l₁.length ∧ targets l₁ i k = true := by
      by_contra hno
      push_neg at hno
      have hn2 := (lastMatchIdx_eq_none l₁ k l₁.length).mpr
        (fun i hi hm => hno i hi hm)
      rw [hn2] at hlm
      simp at hlm
    obtain ⟨i, hi, hm⟩ := hex
    have hrel1 : (instrAt l₁ k).has_relative_target = true :=
      ((targets_iff l₁ i k).mp hm).1
    have hextF : (instrAt (crossRefPass l₁) k).has_external_target = false :=
      bool_false_of_not_true _ (fun hc => (((hf k).1).mp hc).2 ⟨i, hi, hm⟩)
    rw [hout2]
    constructor
    · intro hno
      exact absurd hno (by simp)
    · rintro (hnr | hext)
      · exact absurd (by rw [hskr]; exact hrel1) hnr
      · rw [hextF] at hext
        exact absurd hext (by simp)

/-- C10: an analyzed instruction whose relative target resolves to its own
address (a self-targeting branch such as `EB FE`) is classified as internal by
the cross-reference pass: `has_external_target` is cleared, `outgoing` is its
own index, `is_internal_target` is set and its own index is in `incoming`.
The decoder is assumed to return positive instruction lengths (as Zydis
does), which makes instruction addresses distinct. -/
theorem claim_C10_self_target_internal
    (decode : List Nat → Option ZydisDecodedInstruction)
    (calcAbsoluteAddress : ZydisDecodedInstruction → Nat → Option Nat)
    (buffer : List Nat) (buffer_address bytes_to_analyze : Nat)
    (l : List ZyrexAnalyzedInstruction) (bytes_read : Nat)
    (hpos : ∀ bs ins, decode bs = some ins → 0 < ins.length)
    (h : ZyrexAnalyzeInstructions decode calcAbsoluteAddress buffer buffer_address
        bytes_to_analyze = some (l, bytes_read))
    (k : Nat) (hk : k < l.length)
    (hrel : (instrAt l k).has_relative_target = true)
    (hself : (instrAt l k).absolute_target_address = (instrAt l k).address) :
    (instrAt l k).has_external_target = false ∧
    (instrAt l k).outgoing = some k ∧
    (instrAt l k).is_internal_target = true ∧
    k ∈ (instrAt l k).incoming := by
  obtain ⟨l₁, hfp, hcr⟩ := ZyrexAnalyzeInstructions_decompose decode
    calcAbsoluteAddress buffer buffer_address bytes_to_analyze l bytes_read h
  obtain ⟨post, hl, hchain, hbr, hbta, hinit⟩ := analyzeFirstPass_sound decode
    calcAbsoluteAddress buffer buffer_address bytes_to_analyze bytes_to_analyze
    0 [] l₁ bytes_read hfp
  simp only [List.nil_append] at hl
  subst hl
  subst hcr
  obtain ⟨hst, hf⟩ := crossRefPass_spec l₁
  have hk1 : k < l₁.length := by
    rw [hst.1] at hk
    exact hk
  have hini := hinit _ (instrAt_mem l₁ k hk1)
  obtain ⟨hsko, hska, hski, hskr, hskt⟩ := hst.2 k
  rw [hskr] at hrel
  rw [hskt, hska] at hself
  have hm : targets l₁ k k = true := (targets_iff l₁ k k).mpr ⟨hrel, hself⟩
  have hposl : ∀ it ∈ l₁, 0 < it.instruction.length :=
    fun it hit => hpos _ _ (hinit it hit).2.2.2.2.2.2
  have huniq : ∀ i, i < l₁.length → targets l₁ i k = true → i = k := by
    intro i hi hm2
    have htgt := ((targets_iff l₁ i k).mp hm2).2
    have haddr : (instrAt l₁ i).address = (instrAt l₁ k).address := by
      rw [← htgt, hself]
    have hai := (hinit _ (instrAt_mem l₁ i hi)).2.2.2.2.1
    have hak := (hinit _ (instrAt_mem l₁ k hk1)).2.2.2.2.1
    have hoff : (instrAt l₁ i).address_offset = (instrAt l₁ k).address_offset := by
      omega
    by_contra hne
    rcases Nat.lt_or_ge i k with hik | hik
    · have := chainFrom_mono l₁ 0 hchain hposl i k hik hk1
      omega
    · have := chainFrom_mono l₁ 0 hchain hposl k i (by omega) hi
      omega
  refine ⟨?_, ?_, ?_, ?_⟩
  · exact bool_false_of_not_true _ (fun hc => (((hf k).1).mp hc).2 ⟨k, hk1, hm⟩)
  · rw [(hf k).2.1, lastMatchIdx_unique l₁ k k l₁.length hk1 hm huniq]
  · exact ((hf k).2.2.1).mpr (Or.inr ⟨hk1, ⟨k, List.mem_range.mpr hk1, hm⟩⟩)
  · rw [(hf k).2.2.2, hini.2.2.2.1, if_pos hk1]
    simp only [List.nil_append]
    rw [List.mem_filter]
    exact ⟨List.mem_range.mpr hk1, hm⟩

theorem sampleDecode_pos : ∀ bs ins, sampleDecode bs = some ins → 0 < ins.length := by
  intro bs ins h
  unfold sampleDecode at h
  split at h
  · injection h with h2
    rw [← h2]
    exact Nat.zero_lt_one
  · injection h with h2
    rw [← h2]
    exact Nat.zero_lt_two
  · injection h with h2
    rw [← h2]
    exact Nat.zero_lt_two
  · exact absurd h (by simp)

/-- Witness for C6 on a concrete buffer: a two-byte instruction straddling the
one-byte request, so `bytes_read = 2 > 1 = bytes_to_analyze`. -/
theorem claim_C6_witness :
    ZyrexAnalyzeInstructions sampleDecode sampleCalcAbs [0x66, 0x90, 0x90] 4096 1
      = some (C6run.1, C6run.2) ∧
    (C6run.2 = lenSum C6run.1 ∧
     1 ≤ C6run.2 ∧
     (∀ m, m < C6run.1.length → lenSum (C6run.1.take m) < 1)) :=
  ⟨by decide,
   claim_C6_bytes_read sampleDecode sampleCalcAbs [0x66, 0x90, 0x90] 4096 1
     C6run.1 C6run.2 (by decide)⟩

/-- Witness for C7 on a concrete buffer: `EB 50` jumps 0x50 bytes past its
end, outside the analyzed chunk, and stays external. -/
theorem claim_C7_witness :
    (instrAt C7run.1 0).has_external_target = true ↔
      ((instrAt C7run.1 0).has_relative_target = true ∧
        ∀ i, i < C7run.1.length →
          (instrAt C7run.1 i).address ≠ (instrAt C7run.1 0).absolute_target_address) :=
  claim_C7_external_target_no_match sampleDecode sampleCalcAbs [0xEB, 0x50] 4096 1
    C7run.1 C7run.2 (by decide) 0 (by decide)

/-- Witness for C8 on the same concrete buffer: the external branch keeps
`outgoing = none`. -/
theorem claim_C8_witness :
    (instrAt C7run.1 0).outgoing = none ↔
      (¬(instrAt C7run.1 0).has_relative_target = true ∨
        (instrAt C7run.1 0).has_external_target = true) :=
  claim_C8_outgoing_none_iff sampleDecode sampleCalcAbs [0xEB, 0x50] 4096 1
    C7run.1 C7run.2 (by decide) 0 (by decide)

/-- Witness for C10 on a concrete buffer: the self-jump `EB FE` is classified
as internal, targeting itself. -/
theorem claim_C10_witness :
    (instrAt C10run.1 0).has_external_target = false ∧
    (instrAt C10run.1 0).outgoing = some 0 ∧
    (instrAt C10run.1 0).is_internal_target = true ∧
    0 ∈ (instrAt C10run.1 0).incoming :=
  claim_C10_self_target_internal sampleDecode sampleCalcAbs [0xEB, 0xFE] 4096 1
    C10run.1 C10run.2 sampleDecode_pos (by decide) 0 (by decide) (by decide) (by decide)

theorem common_preserves_counters (context : ZyrexTranslationContext)
    (instruction : ZyrexAnalyzedInstruction) :
    (ZyrexRelocateCommonInstruction context instruction).2.bytes_read = context.bytes_read ∧
    (ZyrexRelocateCommonInstruction context instruction).2.instructions_read
      = context.instructions_read := by
  simp [ZyrexRelocateCommonInstruction, ZyrexUpdateTranslationContext]

theorem branch_preserves_counters (context : ZyrexTranslationContext)
    (instruction : ZyrexAnalyzedInstruction) :
    (ZyrexRelocateRelativeBranchInstruction context instruction).2.bytes_read
      = context.bytes_read ∧
    (ZyrexRelocateRelativeBranchInstruction context instruction).2.instructions_read
      = context.instructions_read := by
  unfold ZyrexRelocateRelativeBranchInstruction ZyrexRelocateCommonInstruction
    ZyrexUpdateTranslationContext
  repeat' split
  all_goals simp_all

theorem memory_preserves_counters (context : ZyrexTranslationContext)
    (instruction : ZyrexAnalyzedInstruction) :
    (ZyrexRelocateRelativeMemoryInstruction context instruction).2.bytes_read
      = context.bytes_read ∧
    (ZyrexRelocateRelativeMemoryInstruction context instruction).2.instructions_read
      = context.instructions_read := by
  unfold ZyrexRelocateRelativeMemoryInstruction ZyrexRelocateCommonInstruction
    ZyrexUpdateTranslationContext
  repeat' split
  all_goals simp_all

theorem relative_preserves_counters (context : ZyrexTranslationContext)
    (instruction : ZyrexAnalyzedInstruction) :
    (ZyrexRelocateRelativeInstruction context instruction).2.bytes_read
      = context.bytes_read ∧
    (ZyrexRelocateRelativeInstruction context instruction).2.instructions_read
      = context.instructions_read := by
  unfold ZyrexRelocateRelativeInstruction
  split
  · exact branch_preserves_counters context instruction
  · split
    · exact memory_preserves_counters context instruction
    · simp

/-- C9: if the per-instruction dispatch inside `ZyrexRelocateInstruction`
fails, the error status is propagated unchanged and the context's
`bytes_read` / `instructions_read` counters are untouched; they are advanced
(by the instruction's length and by one) exactly when the dispatched
relocation succeeds. -/
theorem claim_C9_dispatch_error_propagation (context : ZyrexTranslationContext)
    (instruction : ZyrexAnalyzedInstruction) :
    (((if instruction.has_relative_target then
          ZyrexRelocateRelativeInstruction context instruction
        else
          ZyrexRelocateCommonInstruction context instruction).1 ≠ ZyanStatus.success) →
      (ZyrexRelocateInstruction context instruction
        = (if instruction.has_relative_target then
            ZyrexRelocateRelativeInstruction context instruction
          else
            ZyrexRelocateCommonInstruction context instruction) ∧
        (ZyrexRelocateInstruction context instruction).2.bytes_read = context.bytes_read ∧
        (ZyrexRelocateInstruction context instruction).2.instructions_read
          = context.instructions_read)) ∧
    (((if instruction.has_relative_target then
          ZyrexRelocateRelativeInstruction context instruction
        else
          ZyrexRelocateCommonInstruction context instruction).1 = ZyanStatus.success) →
      ((ZyrexRelocateInstruction context instruction).1 = ZyanStatus.success ∧
        (ZyrexRelocateInstruction context instruction).2.bytes_read
          = context.bytes_read + instruction.instruction.length ∧
        (ZyrexRelocateInstruction context instruction).2.instructions_read
          = context.instructions_read + 1)) := by
  have hcnt : (if instruction.has_relative_target then
        ZyrexRelocateRelativeInstruction context instruction
      else
        ZyrexRelocateCommonInstruction context instruction).2.bytes_read
        = context.bytes_read ∧
      (if instruction.has_relative_target then
        ZyrexRelocateRelativeInstruction context instruction
      else
        ZyrexRelocateCommonInstruction context instruction).2.instructions_read
        = context.instructions_read := by
    split
    · exact relative_preserves_counters context instruction
    · exact common_preserves_counters context instruction
  constructor
  · intro hfail
    have hR : ZyrexRelocateInstruction context instruction
        = (if instruction.has_relative_target then
            ZyrexRelocateRelativeInstruction context instruction
          else
            ZyrexRelocateCommonInstruction context instruction) := by
      simp only [ZyrexRelocateInstruction]
      rw [if_neg hfail]
    rw [hR]
    exact ⟨rfl, hcnt.1, hcnt.2⟩
  · intro hsucc
    have hR : ZyrexRelocateInstruction context instruction
        = (ZyanStatus.success,
          { (if instruction.has_relative_target then
              ZyrexRelocateRelativeInstruction context instruction
            else
              ZyrexRelocateCommonInstruction context instruction).2 with
            bytes_read := (if instruction.has_relative_target then
              ZyrexRelocateRelativeInstruction context instruction
            else
              ZyrexRelocateCommonInstruction context instruction).2.bytes_read
              + instruction.instruction.length
            instructions_read := (if instruction.has_relative_target then
              ZyrexRelocateRelativeInstruction context instruction
            else
              ZyrexRelocateCommonInstruction context instruction).2.instructions_read
              + 1 }) := by
      simp only [ZyrexRelocateInstruction]
      rw [if_pos hsucc]
    rw [hR]
    refine ⟨rfl, ?_, ?_⟩
    · simp only
      rw [hcnt.1]
    · simp only
      rw [hcnt.2]

/-- Witness for C9: a relative instruction that is neither a branch nor a
relative-memory instruction makes the dispatch hit `ZYAN_UNREACHABLE`; the
error is propagated and both counters stay untouched. -/
theorem claim_C9_witness :
    ZyrexRelocateInstruction C9context C9instruction
      = (if C9instruction.has_relative_target then
          ZyrexRelocateRelativeInstruction C9context C9instruction
        else
          ZyrexRelocateCommonInstruction C9context C9instruction) ∧
    (ZyrexRelocateInstruction C9context C9instruction).2.bytes_read
      = C9context.bytes_read ∧
    (ZyrexRelocateInstruction C9context C9instruction).2.instructions_read
      = C9context.instructions_read :=
  (claim_C9_dispatch_error_propagation C9context C9instruction).1 (by decide)

/-- C2: for an external-target relative branch, `ZyrexShouldRewriteBranchInstruction`
returns `false` exactly when the signed distance
`target - (destination + bytes_written) - length` fits the existing
immediate width INCLUSIVE of both bounds (`INTw_MIN`/`INTw_MAX` are not
rewritten, one outside is); when it returns `true`, the unenlargeable
short-branch mnemonics take the three-instruction synthesis path (three map
items, `length + 7` destination bytes) and all other branch mnemonics take
the enlargement path (one map item, 5 bytes for `JMP`, 6 for `Jcc`).  The
last conjunct relates the code's wrapped 64-bit distance to the plain
difference for in-range addresses. -/
theorem claim_C2_rewrite_decision (context : ZyrexTranslationContext)
    (instruction : ZyrexAnalyzedInstruction)
    (hbr : ZyrexIsRelativeBranchInstruction instruction.instruction = true)
    (hext : instruction.has_external_target = true)
    (hw : instruction.instruction.imm0.size = 8 ∨ instruction.instruction.imm0.size = 16 ∨
      instruction.instruction.imm0.size = 32) :
    (ZyrexShouldRewriteBranchInstruction context instruction = some false ↔
      (intMinOf instruction.instruction.imm0.size ≤ ZyrexBranchDistance context instruction ∧
        ZyrexBranchDistance context instruction
          ≤ intMaxOf instruction.instruction.imm0.size)) ∧
    (ZyrexShouldRewriteBranchInstruction context instruction = some true →
      ((isUnenlargeableBranch instruction.instruction.mnemonic = true →
        (ZyrexRelocateRelativeBranchInstruction context instruction).1 = ZyanStatus.success ∧
        (ZyrexRelocateRelativeBranchInstruction context instruction).2.translation_map.length
          = context.translation_map.length + 3 ∧
        (ZyrexRelocateRelativeBranchInstruction context instruction).2.bytes_written
          = context.bytes_written + instruction.instruction.length + 7) ∧
      (isUnenlargeableBranch instruction.instruction.mnemonic = false →
        (ZyrexRelocateRelativeBranchInstruction context instruction).1 = ZyanStatus.success ∧
        (ZyrexRelocateRelativeBranchInstruction context instruction).2.translation_map.length
          = context.translation_map.length + 1 ∧
        (ZyrexRelocateRelativeBranchInstruction context instruction).2.bytes_written
          = context.bytes_written +
            (if instruction.instruction.mnemonic = ZydisMnemonic.JMP then 5 else 6)))) ∧
    (context.destination_address + context.bytes_written < 2 ^ 64 →
      -(2 ^ 63) ≤ (instruction.absolute_target_address : Int)
        - ((context.destination_address : Int) + (context.bytes_written : Int))
        - (instruction.instruction.length : Int) →
      (instruction.absolute_target_address : Int)
        - ((context.destination_address : Int) + (context.bytes_written : Int))
        - (instruction.instruction.length : Int) < 2 ^ 63 →
      ZyrexBranchDistance context instruction
        = (instruction.absolute_target_address : Int)
          - ((context.destination_address : Int) + (context.bytes_written : Int))
          - (instruction.instruction.length : Int)) := by
  refine ⟨?_, ?_, ?_⟩
  · rcases hw with hw | hw | hw <;>
      simp only [ZyrexShouldRewriteBranchInstruction, hw, Option.some.injEq,
        decide_eq_false_iff_not, not_or, not_lt, intMinOf, intMaxOf] <;>
      constructor <;> intro hc <;> constructor <;> omega
  · intro hsr
    constructor
    · intro hun
      simp only [ZyrexRelocateRelativeBranchInstruction, hext, Bool.not_true,
        Bool.false_eq_true, if_false, hsr, hun, if_true,
        ZyrexUpdateTranslationContext, ZyrexWriteRelativeJump]
      refine ⟨?_, ?_, ?_⟩
      · simp
      · simp
      · simp
        try omega
    · intro hun
      cases hmn : instruction.instruction.mnemonic
      all_goals try (exfalso; rw [hmn] at hun; exact absurd hun (by decide))
      all_goals simp [ZyrexIsRelativeBranchInstruction, hmn] at hbr
      all_goals (
        simp only [ZyrexRelocateRelativeBranchInstruction, hext, Bool.not_true,
          Bool.false_eq_true, if_false, hsr, hun, hmn, enlargedBranchOpcode,
          isUnenlargeableBranch, ZyrexUpdateTranslationContext]
        refine ⟨?_, ?_, ?_⟩
        · simp
        · simp
        · simp)
  · intro h64 hlo hhi
    unfold ZyrexBranchDistance
    rw [Nat.mod_eq_of_lt h64]
    rw [wrapI_eq_self 64 _ (by norm_num) (by push_cast; omega) (by push_cast; omega)]
    push_cast
    ring

/-- Witness for C2: a short `JMP` (8-bit immediate) whose distance at the new
location is exactly `INT8_MAX = 127` is NOT rewritten (`some false`), per the
inclusive-bounds edge case. -/
theorem claim_C2_witness :
    ZyrexBranchDistance C2context C2instruction = 127 ∧
    ZyrexShouldRewriteBranchInstruction C2context C2instruction = some false :=
  ⟨by decide,
   ((claim_C2_rewrite_decision C2context C2instruction (by decide) (by decide)
      (Or.inl (by decide))).1).mpr (by decide)⟩

theorem wrapI_range (w : Nat) (x : Int) (hw : 0 < w) :
    intMinOf w ≤ wrapI w x ∧ wrapI w x ≤ intMaxOf w := by
  unfold wrapI intMinOf intMaxOf
  have hs := pow_two_split w hw
  have h1 : 0 ≤ (x + 2 ^ (w - 1)) % 2 ^ w :=
    Int.emod_nonneg _ (by positivity)
  have h2 : (x + 2 ^ (w - 1)) % 2 ^ w < 2 ^ w :=
    Int.emod_lt_of_pos _ (by positivity)
  omega

theorem emod_toNat_lt (v : Int) (n : Nat) (hn : 0 < n) :
    (v.emod (n : Int)).toNat < n := by
  have hne : ((n : Int)) ≠ 0 := by exact_mod_cast hn.ne'
  have h1 : 0 ≤ v.emod (n : Int) := Int.emod_nonneg _ hne
  have h2 : v.emod (n : Int) < (n : Int) := Int.emod_lt_of_pos _ (by exact_mod_cast hn)
  omega

theorem readBytesLE_store_toBytesLE (buf : Nat → Nat) (off n v : Nat) :
    readBytesLE (storeBytes buf off (toBytesLE n v)) off n = v % 2 ^ (8 * n) := by
  have h := readBytesLE_storeBytes buf off (toBytesLE n v)
  rw [toBytesLE_length] at h
  rw [h, natFromBytesLE_toBytesLE]

theorem asSigned_readBack32 (buf : Nat → Nat) (off : Nat) (x : Int) :
    asSigned 32 (readBytesLE
      (storeBytes buf off (toBytesLE 4 (((wrapI 32 x).emod (2 ^ 32)).toNat))) off 4)
      = wrapI 32 x := by
  rw [readBytesLE_store_toBytesLE]
  rw [Nat.mod_eq_of_lt (by
    have := emod_toNat_lt (wrapI 32 x) (2 ^ 32) (by norm_num)
    norm_num at this ⊢
    omega)]
  exact asSigned_emod 32 (wrapI 32 x) (by norm_num)
    (wrapI_range 32 x (by norm_num)).1 (wrapI_range 32 x (by norm_num)).2

/-- C4: an enlargeable relative branch with an external target that must be
rewritten is emitted in near form: `JMP` becomes the single opcode byte `E9`
followed by a 4-byte displacement (5 bytes total, per the advanced
`bytes_written`); every conditional `Jcc` becomes the two opcode bytes `0F`
and `0x80 + cc` (with `cc` the canonical condition code of the mnemonic)
followed by a 4-byte displacement (6 bytes total); in both cases the
displacement field, read back from the destination buffer as a signed 32-bit
value, equals `target - (address_of_the_displacement_field + 4)` (as the
wrapped 32-bit result of `ZyrexCalculateRelativeOffset`). -/
theorem claim_C4_enlargement_bytes (context : ZyrexTranslationContext)
    (instruction : ZyrexAnalyzedInstruction)
    (hbr : ZyrexIsRelativeBranchInstruction instruction.instruction = true)
    (hext : instruction.has_external_target = true)
    (hsr : ZyrexShouldRewriteBranchInstruction context instruction = some true)
    (hun : isUnenlargeableBranch instruction.instruction.mnemonic = false) :
    (ZyrexRelocateRelativeBranchInstruction context instruction).1 = ZyanStatus.success ∧
    (instruction.instruction.mnemonic = ZydisMnemonic.JMP →
      (ZyrexRelocateRelativeBranchInstruction context instruction).2.bytes_written
        = context.bytes_written + 5 ∧
      (ZyrexRelocateRelativeBranchInstruction context instruction).2.destination_buffer
        context.bytes_written = 0xE9 ∧
      asSigned 32 (readBytesLE
        (ZyrexRelocateRelativeBranchInstruction context instruction).2.destination_buffer
        (context.bytes_written + 1) 4)
        = wrapI 32 ((instruction.absolute_target_address : Int)
            - (((context.destination_address : Int) + (context.bytes_written : Int) + 1) + 4))) ∧
    (instruction.instruction.mnemonic ≠ ZydisMnemonic.JMP →
      enlargedBranchOpcode instruction.instruction.mnemonic
        = some (0x80 + specConditionCode instruction.instruction.mnemonic, 6) ∧
      specConditionCode instruction.instruction.mnemonic < 16 ∧
      (ZyrexRelocateRelativeBranchInstruction context instruction).2.bytes_written
        = context.bytes_written + 6 ∧
      (ZyrexRelocateRelativeBranchInstruction context instruction).2.destination_buffer
        context.bytes_written = 0x0F ∧
      (ZyrexRelocateRelativeBranchInstruction context instruction).2.destination_buffer
        (context.bytes_written + 1)
        = 0x80 + specConditionCode instruction.instruction.mnemonic ∧
      asSigned 32 (readBytesLE
        (ZyrexRelocateRelativeBranchInstruction context instruction).2.destination_buffer
        (context.bytes_written + 2) 4)
        = wrapI 32 ((instruction.absolute_target_address : Int)
            - (((context.destination_address : Int) + (context.bytes_written : Int) + 2) + 4))) := by
  cases hmn : instruction.instruction.mnemonic
  all_goals try (exfalso; rw [hmn] at hun; exact absurd hun (by decide))
  all_goals simp [ZyrexIsRelativeBranchInstruction, hmn] at hbr
  case JMP =>
    refine ⟨?_, fun _ => ⟨?_, ?_, ?_⟩, fun h => absurd rfl h⟩
    · simp only [ZyrexRelocateRelativeBranchInstruction, hext, Bool.not_true,
        Bool.false_eq_true, if_false, hsr, hmn, isUnenlargeableBranch, enlargedBranchOpcode,
        Nat.reduceBEq, reduceIte, ZyrexCalculateRelativeOffset, ZyrexUpdateTranslationContext]
    · simp only [ZyrexRelocateRelativeBranchInstruction, hext, Bool.not_true,
        Bool.false_eq_true, if_false, hsr, hmn, isUnenlargeableBranch, enlargedBranchOpcode,
        Nat.reduceBEq, reduceIte, ZyrexCalculateRelativeOffset, ZyrexUpdateTranslationContext]
    · simp only [ZyrexRelocateRelativeBranchInstruction, hext, Bool.not_true,
        Bool.false_eq_true, if_false, hsr, hmn, isUnenlargeableBranch, enlargedBranchOpcode,
        Nat.reduceBEq, reduceIte, ZyrexCalculateRelativeOffset, ZyrexUpdateTranslationContext]
      rw [storeBytes_of_out _ _ _ _ (Or.inl (by omega))]
      rw [storeBytes_of_in _ _ _ _ (le_refl _)
        (by simp only [List.length_cons, List.length_nil]; omega)]
      simp
    · simp only [ZyrexRelocateRelativeBranchInstruction, hext, Bool.not_true,
        Bool.false_eq_true, if_false, hsr, hmn, isUnenlargeableBranch, enlargedBranchOpcode,
        Nat.reduceBEq, reduceIte, ZyrexCalculateRelativeOffset, ZyrexUpdateTranslationContext]
      rw [asSigned_readBack32]
      congr 1
      push_cast
      ring
  all_goals refine ⟨?_, fun h => absurd h (by decide),
    fun _ => ⟨by decide, by decide, ?_, ?_, ?_, ?_⟩⟩
  all_goals simp only [ZyrexRelocateRelativeBranchInstruction, hext, Bool.not_true,
    Bool.false_eq_true, if_false, hsr, hmn, isUnenlargeableBranch, enlargedBranchOpcode,
    Nat.reduceBEq, reduceIte, ZyrexCalculateRelativeOffset, ZyrexUpdateTranslationContext]
  all_goals try (rw [asSigned_readBack32]; congr 1; push_cast; ring)
  all_goals rw [storeBytes_of_out _ _ _ _ (Or.inl (by omega))]
  all_goals rw [storeBytes_of_in _ _ _ _ (by omega)
    (by simp only [List.length_cons, List.length_nil]; omega)]
  all_goals simp [specConditionCode]

/-- Witness for C4: a short `JNZ` whose target no longer fits 8 bits is
enlarged to `0F 85` plus a 4-byte displacement. -/
theorem claim_C4_witness :
    enlargedBranchOpcode C4instruction.instruction.mnemonic
      = some (0x80 + specConditionCode C4instruction.instruction.mnemonic, 6) ∧
    specConditionCode C4instruction.instruction.mnemonic < 16 ∧
    (ZyrexRelocateRelativeBranchInstruction C4context C4instruction).2.bytes_written
      = C4context.bytes_written + 6 ∧
    (ZyrexRelocateRelativeBranchInstruction C4context C4instruction).2.destination_buffer
      C4context.bytes_written = 0x0F ∧
    (ZyrexRelocateRelativeBranchInstruction C4context C4instruction).2.destination_buffer
      (C4context.bytes_written + 1)
      = 0x80 + specConditionCode C4instruction.instruction.mnemonic ∧
    asSigned 32 (readBytesLE
      (ZyrexRelocateRelativeBranchInstruction C4context C4instruction).2.destination_buffer
      (C4context.bytes_written + 2) 4)
      = wrapI 32 ((C4instruction.absolute_target_address : Int)
          - (((C4context.destination_address : Int) + (C4context.bytes_written : Int) + 2) + 4)) :=
  (claim_C4_enlargement_bytes C4context C4instruction (by decide) (by decide)
    (by decide) (by decide)).2.2 (by decide)

theorem getD_take_drop (l : List Nat) (br len j : Nat) (hj : j < len)
    (hlen : br + len ≤ l.length) :
    ((l.drop br).take len).getD j 0 = l.getD (br + j) 0 := by
  rw [List.getD_eq_getElem?_getD, List.getD_eq_getElem?_getD]
  rw [List.getElem?_take_of_lt hj, List.getElem?_drop]

theorem asSigned_readBack (buf : Nat → Nat) (off n : Nat) (v : Int) (hn : 0 < n)
    (h1 : intMinOf (8 * n) ≤ v) (h2 : v ≤ intMaxOf (8 * n)) :
    asSigned (8 * n) (readBytesLE
      (storeBytes buf off (toBytesLE n ((v.emod (2 ^ (8 * n))).toNat))) off n) = v := by
  rw [readBytesLE_store_toBytesLE]
  have hc : (((2 : Nat) ^ (8 * n) : Nat) : Int) = (2 : Int) ^ (8 * n) := by push_cast; ring
  have hlt := emod_toNat_lt v (2 ^ (8 * n)) (by positivity)
  rw [hc] at hlt
  rw [Nat.mod_eq_of_lt hlt]
  exact asSigned_emod (8 * n) v (by omega) h1 h2

/-- C5: a relative-memory instruction with an external target is copied
verbatim and only its displacement field is overwritten: the result is
success, `bytes_written` advances by the instruction length, one
translation-map item is appended, every copied byte outside the displacement
field equals the corresponding source byte, and the displacement field, read
back at its native width, equals
`target - (destination + bytes_written + instruction_length)` whenever that
value fits the width. -/
theorem claim_C5_memory_relocation (context : ZyrexTranslationContext)
    (instruction : ZyrexAnalyzedInstruction)
    (hext : instruction.has_external_target = true)
    (hw : instruction.instruction.disp.size = 8 ∨ instruction.instruction.disp.size = 16 ∨
      instruction.instruction.disp.size = 32)
    (hsrc : context.bytes_read + instruction.instruction.length ≤ context.source.length)
    (hlo : intMinOf instruction.instruction.disp.size
      ≤ (instruction.absolute_target_address : Int)
        - ((context.destination_address : Int) + (context.bytes_written : Int)
           + (instruction.instruction.length : Int)))
    (hhi : (instruction.absolute_target_address : Int)
        - ((context.destination_address : Int) + (context.bytes_written : Int)
           + (instruction.instruction.length : Int))
      ≤ intMaxOf instruction.instruction.disp.size) :
    (ZyrexRelocateRelativeMemoryInstruction context instruction).1 = ZyanStatus.success ∧
    (ZyrexRelocateRelativeMemoryInstruction context instruction).2.bytes_written
      = context.bytes_written + instruction.instruction.length ∧
    (ZyrexRelocateRelativeMemoryInstruction context instruction).2.translation_map.length
      = context.translation_map.length + 1 ∧
    (∀ j, j < instruction.instruction.length →
      (j < instruction.instruction.disp.offset ∨
        instruction.instruction.disp.offset + instruction.instruction.disp.size / 8 ≤ j) →
      (ZyrexRelocateRelativeMemoryInstruction context instruction).2.destination_buffer
        (context.bytes_written + j)
        = context.source.getD (context.bytes_read + j) 0) ∧
    asSigned instruction.instruction.disp.size
      (readBytesLE
        (ZyrexRelocateRelativeMemoryInstruction context instruction).2.destination_buffer
        (context.bytes_written + instruction.instruction.disp.offset)
        (instruction.instruction.disp.size / 8))
      = (instruction.absolute_target_address : Int)
        - ((context.destination_address : Int) + (context.bytes_written : Int)
           + (instruction.instruction.length : Int)) := by
  have hwrap : wrapI 32 ((instruction.absolute_target_address : Int)
      - ((context.destination_address : Int) + (context.bytes_written : Int)
         + (instruction.instruction.length : Int)))
      = (instruction.absolute_target_address : Int)
        - ((context.destination_address : Int) + (context.bytes_written : Int)
           + (instruction.instruction.length : Int)) := by
    refine wrapI_eq_self 32 _ (by norm_num) ?_ ?_ <;>
      rcases hw with hw | hw | hw <;>
      rw [hw] at hlo hhi <;>
      unfold intMinOf at hlo <;> unfold intMaxOf at hhi <;>
      norm_num at hlo hhi ⊢ <;> omega
  have e1 : (instruction.absolute_target_address : Int)
      - ((context.destination_address + (context.bytes_written
          + instruction.instruction.length) : Nat) : Int) - ((0 : Nat) : Int)
    = (instruction.absolute_target_address : Int)
      - ((context.destination_address : Int) + (context.bytes_written : Int)
         + (instruction.instruction.length : Int)) := by push_cast; ring
  rcases hw with hw | hw | hw <;>
    simp only [ZyrexRelocateRelativeMemoryInstruction, hext, if_true,
      ZyrexRelocateCommonInstruction, ZyrexUpdateTranslationContext,
      ZyrexCalculateRelativeOffset, hw, reduceIte] <;>
    refine ⟨trivial, by simp, by simp, ?_, ?_⟩
  · intro j hj hout
    rw [storeBytes_of_out _ _ _ _ (by rw [toBytesLE_length]; omega)]
    rw [storeBytes_of_in _ _ _ _ (by omega)
      (by rw [List.length_take, List.length_drop]; omega)]
    rw [Nat.add_sub_cancel_left]
    exact getD_take_drop _ _ _ _ hj (by omega)
  · rw [hw] at hlo hhi
    rw [e1, hwrap]
    exact asSigned_readBack _ _ 1 _ (by norm_num) hlo hhi
  · intro j hj hout
    rw [storeBytes_of_out _ _ _ _ (by rw [toBytesLE_length]; omega)]
    rw [storeBytes_of_in _ _ _ _ (by omega)
      (by rw [List.length_take, List.length_drop]; omega)]
    rw [Nat.add_sub_cancel_left]
    exact getD_take_drop _ _ _ _ hj (by omega)
  · rw [hw] at hlo hhi
    rw [e1, hwrap]
    exact asSigned_readBack _ _ 2 _ (by norm_num) hlo hhi
  · intro j hj hout
    rw [storeBytes_of_out _ _ _ _ (by rw [toBytesLE_length]; omega)]
    rw [storeBytes_of_in _ _ _ _ (by omega)
      (by rw [List.length_take, List.length_drop]; omega)]
    rw [Nat.add_sub_cancel_left]
    exact getD_take_drop _ _ _ _ hj (by omega)
  · rw [hw] at hlo hhi
    rw [e1, hwrap]
    exact asSigned_readBack _ _ 4 _ (by norm_num) hlo hhi

/-- Witness for C5: `48 8B 05 10 00 00 00` (`MOV RAX, [RIP+0x10]`) relocated
`0x40` bytes forward keeps its first byte `0x48` and gets the 32-bit
displacement `-0x30 = 0xFFFFFFD0`. -/
theorem claim_C5_witness :
    (ZyrexRelocateRelativeMemoryInstruction C5context C5instruction).2.destination_buffer
      (C5context.bytes_written + 0) = 0x48 ∧
    asSigned C5instruction.instruction.disp.size
      (readBytesLE
        (ZyrexRelocateRelativeMemoryInstruction C5context C5instruction).2.destination_buffer
        (C5context.bytes_written + C5instruction.instruction.disp.offset)
        (C5instruction.instruction.disp.size / 8))
      = -0x30 :=
  ⟨((claim_C5_memory_relocation C5context C5instruction (by decide)
      (Or.inr (Or.inr (by decide))) (by decide) (by decide) (by decide)).2.2.2.1
      0 (by decide) (Or.inl (by decide))).trans (by decide),
   ((claim_C5_memory_relocation C5context C5instruction (by decide)
      (Or.inr (Or.inr (by decide))) (by decide) (by decide) (by decide)).2.2.2.2).trans
      (by decide)⟩

/-- C3: on a `JECXZ` (source `E3 64`, length 2, relocated with
`bytes_written = 0`) that must be rewritten, the synthesis path emits exactly
the spec's byte sequence — the original instruction with its immediate byte
overwritten by `0x02` at offset 0, `EB 05` at offset 2, and `E9` plus the
32-bit displacement to the resolved target at offset 4 — and appends three
translation-map items sharing source offset 0 with increasing destination
offsets; but those destination offsets are `0`, `4` and `8`, not the offsets
`0`, `2` and `4` where the second and third emitted parts actually live
(there is no `EB` at offset 4 and no `E9` at offset 8): the update routine is
called with `(ZyanU8)context->bytes_written + length` only after
`bytes_written` has already been advanced by the previous update. -/
theorem claim_C3_synthesis_map_bug :
    (ZyrexRelocateRelativeBranchInstruction C3context C3instruction).1
      = ZyanStatus.success ∧
    ((ZyrexRelocateRelativeBranchInstruction C3context C3instruction).2.destination_buffer 0
        = 0xE3 ∧
      (ZyrexRelocateRelativeBranchInstruction C3context C3instruction).2.destination_buffer 1
        = 0x02 ∧
      (ZyrexRelocateRelativeBranchInstruction C3context C3instruction).2.destination_buffer 2
        = 0xEB ∧
      (ZyrexRelocateRelativeBranchInstruction C3context C3instruction).2.destination_buffer 3
        = 0x05 ∧
      (ZyrexRelocateRelativeBranchInstruction C3context C3instruction).2.destination_buffer 4
        = 0xE9 ∧
      asSigned 32 (readBytesLE
        (ZyrexRelocateRelativeBranchInstruction C3context C3instruction).2.destination_buffer
        5 4)
        = (C3instruction.absolute_target_address : Int)
          - ((C3context.destination_address : Int) + 5 + 4)) ∧
    (ZyrexRelocateRelativeBranchInstruction C3context C3instruction).2.translation_map
      = [⟨0, 0⟩, ⟨0, 4⟩, ⟨0, 8⟩] ∧
    ¬ ((ZyrexRelocateRelativeBranchInstruction C3context C3instruction).2.destination_buffer 4
        = 0xEB) ∧
    ¬ ((ZyrexRelocateRelativeBranchInstruction C3context C3instruction).2.destination_buffer 8
        = 0xE9) := by
  refine ⟨by decide, ⟨by decide, by decide, by decide, by decide, by decide, ?_⟩,
    by decide, by decide, by decide⟩
  decide

theorem fixupLoop_cons (map : List ZyrexInstructionTranslationItem)
    (instrs : List ZyrexAnalyzedInstruction) (buf : Nat → Nat)
    (i : ZyrexAnalyzedInstruction) (l : List ZyrexAnalyzedInstruction) :
    ZyrexUpdateInstructionsOffsetsLoop map instrs buf (i :: l)
      = if (ZyrexFixupInstruction map instrs buf i).1 = ZyanStatus.success
        then ZyrexUpdateInstructionsOffsetsLoop map instrs
          (ZyrexFixupInstruction map instrs buf i).2 l
        else ZyrexFixupInstruction map instrs buf i := rfl

theorem fixupLoop_append (map : List ZyrexInstructionTranslationItem)
    (instrs : List ZyrexAnalyzedInstruction) (l1 l2 : List ZyrexAnalyzedInstruction) :
    ∀ buf : Nat → Nat,
    ZyrexUpdateInstructionsOffsetsLoop map instrs buf (l1 ++ l2)
      = if (ZyrexUpdateInstructionsOffsetsLoop map instrs buf l1).1 = ZyanStatus.success
        then ZyrexUpdateInstructionsOffsetsLoop map instrs
          (ZyrexUpdateInstructionsOffsetsLoop map instrs buf l1).2 l2
        else ZyrexUpdateInstructionsOffsetsLoop map instrs buf l1 := by
  induction l1 with
  | nil => intro buf; simp [ZyrexUpdateInstructionsOffsetsLoop]
  | cons i t ih =>
    intro buf
    rw [List.cons_append, fixupLoop_cons, fixupLoop_cons]
    by_cases h : (ZyrexFixupInstruction map instrs buf i).1 = ZyanStatus.success
    · rw [if_pos h, if_pos h, ih]
    · rw [if_neg h, if_neg h, if_neg h]

theorem fixup_frame_byte (map : List ZyrexInstructionTranslationItem)
    (instrs : List ZyrexAnalyzedInstruction) (buf : Nat → Nat)
    (ins : ZyrexAnalyzedInstruction) (x : Nat)
    (hx : ins.has_relative_target = true → ins.has_external_target = false →
      ∀ oi, ZyrexGetRelocatedInstructionOffset map (ins.address_offset % 256) = some oi →
        x < oi + (fixupField ins.instruction).1 ∨
        oi + (fixupField ins.instruction).1 + (fixupField ins.instruction).2 / 8 ≤ x) :
    (ZyrexFixupInstruction map instrs buf ins).2 x = buf x := by
  simp only [ZyrexFixupInstruction]
  split
  · rfl
  · rename_i hskip
    have hb : ins.has_relative_target = true ∧ ins.has_external_target = false := by
      simpa using hskip
    split
    · rfl
    · rename_i hsz0
      split
      · rfl
      · rename_i oi hoi
        split
        · rfl
        · rename_i t ht
          split
          · rfl
          · rename_i dest hdest
            split
            · rfl
            · rename_i ot hot
              have h := hx hb.1 hb.2 oi hoi
              split
              all_goals try rfl
              all_goals rename_i heq
              all_goals show storeBytes _ _ _ x = buf x
              all_goals exact storeBytes_of_out _ _ _ _ (by rw [toBytesLE_length]; omega)

theorem fixupLoop_frame (map : List ZyrexInstructionTranslationItem)
    (instrs : List ZyrexAnalyzedInstruction) (l : List ZyrexAnalyzedInstruction) :
    ∀ (buf : Nat → Nat) (x : Nat),
    (∀ ins ∈ l, ins.has_relative_target = true → ins.has_external_target = false →
      ∀ oi, ZyrexGetRelocatedInstructionOffset map (ins.address_offset % 256) = some oi →
        x < oi + (fixupField ins.instruction).1 ∨
        oi + (fixupField ins.instruction).1 + (fixupField ins.instruction).2 / 8 ≤ x) →
    (ZyrexUpdateInstructionsOffsetsLoop map instrs buf l).2 x = buf x := by
  induction l with
  | nil => intro buf x hx; rfl
  | cons i t ih =>
    intro buf x hx
    rw [fixupLoop_cons]
    split
    · rw [ih _ _ (fun ins hm => hx ins (List.mem_cons_of_mem _ hm))]
      exact fixup_frame_byte _ _ _ _ _ (hx i (List.mem_cons_self _ _))
    · exact fixup_frame_byte _ _ _ _ _ (hx i (List.mem_cons_self _ _))

theorem fixupLoop_read_frame (map : List ZyrexInstructionTranslationItem)
    (instrs post : List ZyrexAnalyzedInstruction) (S : Nat → Nat) (off n : Nat)
    (h : ∀ j, j < n → ∀ ins ∈ post, ins.has_relative_target = true →
      ins.has_external_target = false →
      ∀ oi, ZyrexGetRelocatedInstructionOffset map (ins.address_offset % 256) = some oi →
        off + j < oi + (fixupField ins.instruction).1 ∨
        oi + (fixupField ins.instruction).1 + (fixupField ins.instruction).2 / 8 ≤ off + j) :
    readBytesLE (ZyrexUpdateInstructionsOffsetsLoop map instrs S post).2 off n
      = readBytesLE S off n :=
  readBytesLE_congr _ _ off n
    (fun j hj => fixupLoop_frame map instrs post S (off + j)
      (fun ins hm => h j hj ins hm))

/-- C1: after the fix-up pass succeeds, the patched field of an analyzed
instruction with a relative target inside the relocated chunk, read back from
the destination buffer as a signed integer of its native 8/16/32-bit width,
equals the destination offset of its outgoing target minus the instruction's
own destination offset minus the instruction length, where both destination
offsets come from the FIRST translation-map entry matching the respective
`address_offset` (`ZyrexGetRelocatedInstructionOffset`); the hypotheses state
that both lookups succeed, that the value fits the field width, and that no
other fixed-up instruction's field overlaps this one's. -/
theorem claim_C1_fixup_readback (context : ZyrexTranslationContext)
    (k t oi ot : Nat) (instruction destination : ZyrexAnalyzedInstruction)
    (hget : context.instructions.get? k = some instruction)
    (hsu : (ZyrexUpdateInstructionsOffsets context).1 = ZyanStatus.success)
    (hrel : instruction.has_relative_target = true)
    (hext : instruction.has_external_target = false)
    (hsize : (fixupField instruction.instruction).2 = 8 ∨
      (fixupField instruction.instruction).2 = 16 ∨
      (fixupField instruction.instruction).2 = 32)
    (hoi : ZyrexGetRelocatedInstructionOffset context.translation_map
      (instruction.address_offset % 256) = some oi)
    (ht : instruction.outgoing = some t)
    (hdest : context.instructions.get? t = some destination)
    (hot : ZyrexGetRelocatedInstructionOffset context.translation_map
      (destination.address_offset % 256) = some ot)
    (hlo : intMinOf (fixupField instruction.instruction).2
      ≤ (ot : Int) - (oi : Int) - (instruction.instruction.length : Int))
    (hhi : (ot : Int) - (oi : Int) - (instruction.instruction.length : Int)
      ≤ intMaxOf (fixupField instruction.instruction).2)
    (hdisj : ∀ k' ins', context.instructions.get? k' = some ins' → k' ≠ k →
      ins'.has_relative_target = true → ins'.has_external_target = false →
      ∀ oi', ZyrexGetRelocatedInstructionOffset context.translation_map
          (ins'.address_offset % 256) = some oi' →
        oi' + (fixupField ins'.instruction).1 + (fixupField ins'.instruction).2 / 8
          ≤ oi + (fixupField instruction.instruction).1 ∨
        oi + (fixupField instruction.instruction).1
          + (fixupField instruction.instruction).2 / 8
          ≤ oi' + (fixupField ins'.instruction).1) :
    asSigned (fixupField instruction.instruction).2
      (readBytesLE (ZyrexUpdateInstructionsOffsets context).2.destination_buffer
        (oi + (fixupField instruction.instruction).1)
        ((fixupField instruction.instruction).2 / 8))
      = (ot : Int) - (oi : Int) - (instruction.instruction.length : Int) := by
  have hklt : k < context.instructions.length := by
    rw [List.get?_eq_getElem?] at hget
    exact (List.getElem?_eq_some_iff.mp hget).1
  have hgetk : context.instructions[k] = instruction := by
    rw [List.get?_eq_getElem?] at hget
    exact (List.getElem?_eq_some_iff.mp hget).2
  have hsplit : context.instructions
      = context.instructions.take k ++ instruction :: context.instructions.drop (k + 1) := by
    conv_lhs => rw [← List.take_append_drop k context.instructions]
    rw [List.drop_eq_getElem_cons hklt, hgetk]
  have hval : ZyrexCalculateRelativeOffset instruction.instruction.length oi ot
      = (ot : Int) - (oi : Int) - (instruction.instruction.length : Int) := by
    unfold ZyrexCalculateRelativeOffset
    refine wrapI_eq_self 32 _ (by norm_num) ?_ ?_ <;>
      rcases hsize with hsz | hsz | hsz <;> rw [hsz] at hlo hhi <;>
      unfold intMinOf at hlo <;> unfold intMaxOf at hhi <;>
      norm_num at hlo hhi ⊢ <;> omega
  simp only [ZyrexUpdateInstructionsOffsets] at hsu ⊢
  rw [hsplit] at hsu hdest ⊢
  set map := context.translation_map with hmap
  set pre := context.instructions.take k with hpre
  set post := context.instructions.drop (k + 1) with hpost
  set instrs := pre ++ instruction :: post with hinstrs
  rw [fixupLoop_append] at hsu ⊢
  by_cases hL1 : (ZyrexUpdateInstructionsOffsetsLoop map instrs
      context.destination_buffer pre).1 = ZyanStatus.success
  case neg => rw [if_neg hL1] at hsu; exact absurd hsu hL1
  rw [if_pos hL1] at hsu ⊢
  set bufp := (ZyrexUpdateInstructionsOffsetsLoop map instrs
    context.destination_buffer pre).2 with hbufp
  rw [fixupLoop_cons] at hsu ⊢
  have hbig : ∀ j, j < (fixupField instruction.instruction).2 / 8 →
      ∀ ins' ∈ post, ins'.has_relative_target = true →
      ins'.has_external_target = false →
      ∀ oi', ZyrexGetRelocatedInstructionOffset map (ins'.address_offset % 256) = some oi' →
        oi + (fixupField instruction.instruction).1 + j
          < oi' + (fixupField ins'.instruction).1 ∨
        oi' + (fixupField ins'.instruction).1 + (fixupField ins'.instruction).2 / 8
          ≤ oi + (fixupField instruction.instruction).1 + j := by
    intro j hj ins' hm hrel' hext' oi' hoi'
    rw [hpost] at hm
    obtain ⟨i, hi⟩ := List.mem_iff_get?.mp hm
    rw [List.get?_drop] at hi
    have hd := hdisj (k + 1 + i) ins' hi (by omega) hrel' hext' oi' hoi'
    omega
  rcases hsize with hsz | hsz | hsz
  all_goals (
    have hstep : ZyrexFixupInstruction map instrs bufp instruction
        = (ZyanStatus.success,
            storeBytes bufp (oi + (fixupField instruction.instruction).1)
              (toBytesLE ((fixupField instruction.instruction).2 / 8)
                (((ZyrexCalculateRelativeOffset instruction.instruction.length oi ot).emod
                  (2 ^ (fixupField instruction.instruction).2)).toNat))) := by
      simp only [ZyrexFixupInstruction, hrel, hext, Bool.not_true, Bool.or_false,
        Bool.false_eq_true, if_false, hoi, ht, hdest, hot, hsz, Nat.reduceDiv, reduceIte]
      norm_num
    simp only [hstep, reduceIte]
    rw [fixupLoop_read_frame map instrs post _ _ _ hbig]
    rw [hval, hsz])
  · exact asSigned_readBack _ _ 1 _ (by norm_num)
      (by rw [hsz] at hlo; exact hlo) (by rw [hsz] at hhi; exact hhi)
  · exact asSigned_readBack _ _ 2 _ (by norm_num)
      (by rw [hsz] at hlo; exact hlo) (by rw [hsz] at hhi; exact hhi)
  · exact asSigned_readBack _ _ 4 _ (by norm_num)
      (by rw [hsz] at hlo; exact hlo) (by rw [hsz] at hhi; exact hhi)

/-- Witness for C1: a relocated `JMP +0` (`EB 00`) followed by a `NOP`, with
translation map `[(0,0), (2,2)]`: after the fix-up pass the branch immediate
reads back as `2 - 0 - 2 = 0`. -/
theorem claim_C1_witness :
    asSigned (fixupField C1i0.instruction).2
      (readBytesLE (ZyrexUpdateInstructionsOffsets C1fixcontext).2.destination_buffer
        (0 + (fixupField C1i0.instruction).1)
        ((fixupField C1i0.instruction).2 / 8))
      = ((2 : Nat) : Int) - ((0 : Nat) : Int) - (C1i0.instruction.length : Int) :=
  claim_C1_fixup_readback C1fixcontext 0 1 0 2 C1i0 C1i1
    (by decide) (by decide) (by decide) (by decide)
    (Or.inl (by decide)) (by decide) (by decide) (by decide) (by decide)
    (by decide) (by decide)
    (by
      intro k' ins' hk' hne hrel' hext' oi' hoi'
      rcases k' with _ | k''
      · exact absurd rfl hne
      · rcases k'' with _ | n
        · simp only [C1fixcontext, List.get?] at hk'
          cases hk'
          exact absurd hrel' (by decide)
        · simp only [C1fixcontext, List.get?] at hk'
          exact Option.noConfusion hk')
